import Mathlib

/-!
# Cordless: event synchronisation and view state of the window

A shallow embedding of `internal/ui/window.go`.

* Go slices of message pointers are lists of message values; distinct slots of
  a slice are taken to hold distinct message objects.
* The protocol library (`discordgo`), the notification sink (`beeep`) and the
  widget toolkit (`tview`) are collaborators.  Their answers are inputs
  (`Session`), their calls are outputs (`Handled.cacheOps`,
  `Handled.notifications`), and a closure handed to `QueueUpdateDraw` is a
  value of `Update` that `Update.run` executes later against the window as it
  is at that time.
  Calls into the library are taken to leave the slices and messages that the
  window holds as they are.
* A Go panic is an `Except.error` carrying a `Fault`.
-/

namespace Cordless

/-! ## Data model -/

/-- Channel kinds of the protocol library that the window distinguishes. -/
inductive ChannelType
  | GuildText
  | DM
  | GuildVoice
  | GroupDM
  | GuildCategory
  deriving DecidableEq, Repr

/-- A user as far as the window reads it. -/
structure User where
  ID : String
  Username : String
  deriving DecidableEq, Repr

/-- A message as far as the window reads it.  `Timestamp` is the raw text that
`Timestamp.Parse()` is applied to. -/
structure Message where
  ID : String
  ChannelID : String
  Content : String
  Timestamp : String
  Author : User
  Mentions : List User
  deriving DecidableEq, Repr

/-- A channel as far as the window reads it (`Typ` is the Go field `Type`). -/
structure Channel where
  ID : String
  Name : String
  Topic : String
  Typ : ChannelType
  LastMessageID : String
  Messages : List Message
  Recipients : List User
  deriving DecidableEq, Repr

/-- Colours the window gives to navigation entries. -/
inductive Color
  | White
  | Teal
  | Red
  deriving DecidableEq, Repr

/-- An entry of the channel tree below `channelRootNode`, in walk order. -/
structure TreeNode where
  reference : Option String
  text : String
  color : Color
  deriving DecidableEq, Repr

/-- The fields of `Window` that the event pipeline reads and writes. -/
structure Window where
  shownMessages : List Message
  selectedChannel : Option Channel
  editingMessageID : Option String
  channelTitle : String
  messageInputText : String
  channelNodes : List TreeNode
  deriving DecidableEq, Repr

/-- Answers of the collaborators that the window calls: the id of the logged-in
user (`session.State.User.ID`), `Timestamp.Parse` (an instant, or `none` for a
parse error), the cache lookup `session.State.Channel` (`none` for an error,
in which case the returned pointer is nil), the remote history fetch
`session.ChannelMessages(id, 100, "", "", "")` (the list and the error it
returns) and `Message.ContentWithMentionsReplaced`. -/
structure Session where
  userID : String
  parse : String → Option Int
  stateChannel : String → Option Channel
  channelMessages : String → List Message × Option String
  contentWithMentionsReplaced : Message → String

/-- Run-time faults of the Go code. -/
inductive Fault
  | nilDereference
  | sliceBounds
  | indexOutOfRange
  deriving DecidableEq, Repr

/-- Calls into the protocol library's message cache. -/
inductive CacheOp
  | MessageAdd (message : Message)
  | MessageRemove (message : Message)
  | RemoteFetch (channelID : String)
  | AppendMessages (channelID : String) (messages : List Message)
  deriving DecidableEq, Repr

/-- A call of `beeep.Notify(title, body, "assets/information.png")`. -/
structure Notification where
  title : String
  body : String
  deriving DecidableEq, Repr

/-- The closures that the window hands to `app.QueueUpdateDraw`. -/
inductive Update
  | addMessages (messages : List Message)
  | markChannel (message : Message) (mentionsYou : Bool)
  | removeShownAt (index : Nat)
  | redrawShown
  deriving DecidableEq, Repr

/-- What one goroutine iteration did: the window after the writes it made
directly, the updates it queued, the notifications it dispatched and the cache
calls it made. -/
structure Handled where
  window : Window
  queued : List Update
  notifications : List Notification
  cacheOps : List CacheOp
  deriving DecidableEq, Repr

/-! ## Window operations -/

/-- `Window.AddMessages`: append to the visible sequence. -/
def Window.AddMessages (window : Window) (messages : List Message) : Window :=
  { window with shownMessages := window.shownMessages ++ messages }

/-- `Window.SetMessages`: replace the visible sequence by the list passed. -/
def Window.SetMessages (window : Window) (messages : List Message) : Window :=
  { window with shownMessages := messages }

/-- `Window.exitMessageEditModeAndKeepText`. -/
def Window.exitMessageEditModeAndKeepText (window : Window) : Window :=
  { window with editingMessageID := none }

/-- `Window.exitMessageEditMode`. -/
def Window.exitMessageEditMode (window : Window) : Window :=
  { window.exitMessageEditModeAndKeepText with messageInputText := "" }

/-! ## Sorting by timestamp -/

/-- The comparator that `LoadChannel` passes to `sort.Slice`. -/
def timestampLess (parse : String → Option Int) (a b : Message) : Bool :=
  match parse a.Timestamp with
  | none => false
  | some timeA =>
    match parse b.Timestamp with
    | none => true
    | some timeB => decide (timeA < timeB)

/-- One insertion step of the library sort: `x` is put before the first
element it is less than. -/
def insertByLess {α : Type} (less : α → α → Bool) (x : α) : List α → List α
  | [] => [x]
  | y :: ys => if less x y then x :: y :: ys else y :: insertByLess less x ys

/-- The library call `sort.Slice`, as insertion sort.  The theorems about it
use what the library promises for a strict weak ordering (the result is a
permutation ordered by `less`), not where it puts ties. -/
def sortSlice {α : Type} (less : α → α → Bool) (xs : List α) : List α :=
  xs.foldl (fun sorted x => insertByLess less x sorted) []

/-! ## LoadChannel -/

/-- The history that `LoadChannel` resolves, with the cache calls made on the
way: inline messages, else the cache, else the remote fetch.  The write
`cache.Messages = append(cache.Messages, messages...)` goes through the
pointer that the failed lookup left nil. -/
def resolveMessages (env : Session) (channel : Channel) :
    Except Fault (List Message × List CacheOp) :=
  if channel.LastMessageID ≠ "" ∧ channel.Messages.length = 0 then
    match env.stateChannel channel.ID with
    | none =>
      match env.channelMessages channel.ID with
      | (_, none) => .error Fault.nilDereference
      | (messages, some _) => .ok (messages, [CacheOp.RemoteFetch channel.ID])
    | some cache =>
      if cache.Messages.length = 0 then
        match env.channelMessages channel.ID with
        | (messages, none) =>
          .ok (messages, [CacheOp.RemoteFetch channel.ID,
                          CacheOp.AppendMessages channel.ID messages])
        | (messages, some _) => .ok (messages, [CacheOp.RemoteFetch channel.ID])
      else .ok (cache.Messages, [])
  else .ok (channel.Messages, [])

/-- The title that `LoadChannel` sets. -/
def channelTitleOf (channel : Channel) : String :=
  if channel.Topic ≠ "" then channel.Name ++ " - " ++ channel.Topic else channel.Name

/-- The window that `Window.LoadChannel` leaves once the history is resolved. -/
def loadResolved (env : Session) (window : Window) (channel : Channel)
    (messages : List Message) : Window :=
  Window.exitMessageEditModeAndKeepText
    { (window.SetMessages (sortSlice (timestampLess env.parse) messages)) with
        channelTitle := channelTitleOf channel
        selectedChannel := some channel }

/-- `Window.LoadChannel`: the window it leaves, or the fault it stops with.
The Go function returns `nil` in every completed run. -/
def Window.LoadChannel (env : Session) (window : Window) (channel : Channel) :
    Except Fault Window :=
  match resolveMessages env channel with
  | .error fault => .error fault
  | .ok (messages, _) => .ok (loadResolved env window channel messages)

/-! ## Queued updates -/

/-- What the walk of the create consumer does to one navigation entry. -/
def markNode (env : Session) (selected : Channel) (message : Message)
    (mentionsYou : Bool) (node : TreeNode) : TreeNode :=
  match node.reference with
  | none => node
  | some data =>
    if data = message.ChannelID ∧ selected.ID ≠ data then
      let text :=
        if mentionsYou then
          match env.stateChannel message.ChannelID with
          | some channel => "(@You) " ++ channel.Name
          | none => node.text
        else node.text
      { node with text := text, color := Color.Red }
    else node

/-- Execution of a queued update against the window as it is then. -/
def Update.run (env : Session) : Update → Window → Except Fault Window
  | .addMessages messages, window => .ok (window.AddMessages messages)
  | .markChannel message mentionsYou, window =>
    match window.selectedChannel with
    | some selected =>
      .ok { window with
              channelNodes := window.channelNodes.map (markNode env selected message mentionsYou) }
    | none =>
      if window.channelNodes.any (fun node => node.reference == some message.ChannelID) then
        .error Fault.nilDereference
      else .ok window
  | .removeShownAt index, window =>
    if index + 1 ≤ window.shownMessages.length then
      .ok (window.SetMessages
            (window.shownMessages.take index ++ window.shownMessages.drop (index + 1)))
    else .error Fault.sliceBounds
  | .redrawShown, window => .ok (window.SetMessages window.shownMessages)

/-- Execution of queued updates in the order they were queued. -/
def runUpdates (env : Session) : List Update → Window → Except Fault Window
  | [], window => .ok window
  | update :: rest, window =>
    match update.run env window with
    | .error fault => .error fault
    | .ok next => runUpdates env rest next

/-- The window once the updates queued by a goroutine iteration have run, with
nothing else in between. -/
def Handled.settle (env : Session) (handled : Handled) : Except Fault Window :=
  runUpdates env handled.queued handled.window

/-! ## Notification policy and the event consumers -/

/-- The recipient names joined the way the create consumer does. -/
def recipientNames : List User → String
  | [] => ""
  | first :: rest =>
    rest.foldl (fun location recipient => location ++ ", " ++ recipient.Username)
      first.Username

/-- The `notificationLocation` of the create consumer. -/
def notificationLocation (message : Message) (channel : Channel) : String :=
  if channel.Typ = ChannelType.DM then message.Author.Username
  else if channel.Typ = ChannelType.GroupDM then
    message.Author.Username ++ "-" ++
      (if channel.Name = "" then recipientNames channel.Recipients else channel.Name)
  else if channel.Typ = ChannelType.GuildText then
    message.Author.Username ++ "-" ++ channel.Name
  else ""

/-- One iteration of the goroutine that receives from `messageInputChan`. -/
def createConsumer (env : Session) (window : Window) (message : Message) :
    Except Fault Handled :=
  match window.selectedChannel with
  | none => .error Fault.nilDereference
  | some selected =>
    if message.ChannelID = selected.ID then
      .ok { window := window
            queued := [Update.addMessages [message]]
            notifications := []
            cacheOps := [CacheOp.MessageAdd message] }
    else if message.Author.ID ≠ env.userID then
      let mentioned := message.Mentions.any (fun user => user.ID == env.userID)
      match env.stateChannel message.ChannelID with
      | some channel =>
        let mentionsYou :=
          mentioned || (channel.Typ == ChannelType.DM || channel.Typ == ChannelType.GroupDM)
        .ok { window := window
              queued := [Update.markChannel message mentionsYou]
              notifications :=
                if mentionsYou then
                  [{ title := "Cordless - " ++ notificationLocation message channel
                     body := env.contentWithMentionsReplaced message }]
                else []
              cacheOps := [CacheOp.MessageAdd message] }
      | none =>
        .ok { window := window
              queued := [Update.markChannel message mentioned]
              notifications := []
              cacheOps := [CacheOp.MessageAdd message] }
    else
      .ok { window := window
            queued := []
            notifications := []
            cacheOps := [CacheOp.MessageAdd message] }

/-- The loop of the delete consumer over the visible sequence: the index of the
first message with the given identifier. -/
def firstIndexWithID (id : String) : List Message → Option Nat
  | [] => none
  | message :: rest =>
    if message.ID = id then some 0 else (firstIndexWithID id rest).map (· + 1)

/-- One iteration of the goroutine that receives from `messageDeleteChan`. -/
def deleteConsumer (window : Window) (messageDeleted : Message) : Handled :=
  match firstIndexWithID messageDeleted.ID window.shownMessages with
  | some index =>
    { window := window
      queued := [Update.removeShownAt index]
      notifications := []
      cacheOps := [CacheOp.MessageRemove messageDeleted] }
  | none =>
    { window := window
      queued := []
      notifications := []
      cacheOps := [CacheOp.MessageRemove messageDeleted] }

/-- The loop of the update consumer over the visible sequence: the content of
the first message with the edited identifier is overwritten. -/
def overwriteContent (messageEdited : Message) : List Message → Option (List Message)
  | [] => none
  | message :: rest =>
    if message.ID = messageEdited.ID then
      some ({ message with Content := messageEdited.Content } :: rest)
    else (overwriteContent messageEdited rest).map (fun tail => message :: tail)

/-- One iteration of the goroutine that receives from `messageEditChan`.  The
content is written by the goroutine itself; only the redraw is queued. -/
def updateConsumer (window : Window) (messageEdited : Message) : Handled :=
  match overwriteContent messageEdited window.shownMessages with
  | some shown =>
    { window := { window with shownMessages := shown }
      queued := [Update.redrawShown]
      notifications := []
      cacheOps := [CacheOp.MessageAdd messageEdited] }
  | none =>
    { window := window
      queued := []
      notifications := []
      cacheOps := [CacheOp.MessageAdd messageEdited] }

/-- The loop of the edit goroutine: the first slot whose message has the
identifier of the updated message is overwritten with it. -/
def replaceSlot (updatedMessage : Message) : List Message → List Message
  | [] => []
  | msg :: rest =>
    if msg.ID = updatedMessage.ID then updatedMessage :: rest
    else msg :: replaceSlot updatedMessage rest

/-- The goroutine started by `Window.editMessage`, given what
`session.ChannelMessageEdit` returned.  The slot is written by the goroutine
itself; the redraw is queued in either case. -/
def editGoroutine (window : Window) (result : Except String Message) : Handled :=
  match result with
  | .ok updatedMessage =>
    { window := { window with shownMessages := replaceSlot updatedMessage window.shownMessages }
      queued := [Update.redrawShown]
      notifications := []
      cacheOps := [] }
  | .error _ =>
    { window := window
      queued := [Update.redrawShown]
      notifications := []
      cacheOps := [] }

/-- `Window.editMessage` run to completion: the caller leaves edit mode, the
goroutine runs and its queued redraw executes. -/
def Window.editMessage (env : Session) (window : Window) (result : Except String Message) :
    Except Fault Window :=
  (editGoroutine window.exitMessageEditMode result).settle env

/-! ## Producers, queues and interleavings -/

/-- Capacity of each of the three event channels. -/
def eventChanCapacity : Nat := 50

/-- A send on a buffered event channel; `none` when the buffer is full and the
sender blocks. -/
def chanSend (chan : List Message) (message : Message) : Option (List Message) :=
  if chan.length < eventChanCapacity then some (chan ++ [message]) else none

/-- The `MessageCreate` handler registered with the session: the channel
`messageInputChan` after it ran, `none` when it blocks on the full channel. -/
def onMessageCreate (window : Window) (messageInputChan : List Message) (m : Message) :
    Option (List Message) :=
  match window.selectedChannel with
  | some _ => chanSend messageInputChan m
  | none => some messageInputChan

/-- The `MessageDelete` handler registered with the session. -/
def onMessageDelete (window : Window) (messageDeleteChan : List Message) (m : Message) :
    Option (List Message) :=
  match window.selectedChannel with
  | some selected =>
    if m.ChannelID = selected.ID then chanSend messageDeleteChan m else some messageDeleteChan
  | none => some messageDeleteChan

/-- The `MessageUpdate` handler registered with the session. -/
def onMessageUpdate (window : Window) (messageEditChan : List Message) (m : Message) :
    Option (List Message) :=
  match window.selectedChannel with
  | some selected =>
    if m.ChannelID = selected.ID ∧ m.Content ≠ "" then chanSend messageEditChan m
    else some messageEditChan
  | none => some messageEditChan

/-- Result of one step of a concurrent component: the next state, a step that
cannot proceed yet, or a fault. -/
inductive Outcome (σ : Type)
  | next (state : σ)
  | blocked
  | fault (reason : Fault)
  deriving DecidableEq, Repr

/-- The window together with the create channel, the update queue of the
application and the notifications dispatched so far. -/
structure System where
  window : Window
  messageInputChan : List Message
  updates : List Update
  notifications : List Notification
  deriving DecidableEq, Repr

/-- The steps that interleave around a Created event: the protocol library
calls the `MessageCreate` handler, the create consumer receives one message, a
channel node is selected (its handler runs `LoadChannel` in the event loop of
the application), and the event loop runs the oldest queued update. -/
inductive Step
  | messageCreate (m : Message)
  | consumeCreate
  | loadChannel (channel : Channel)
  | runUpdate
  deriving DecidableEq, Repr

/-- One step of the system. -/
def System.step (env : Session) (system : System) : Step → Outcome System
  | .messageCreate m =>
    match onMessageCreate system.window system.messageInputChan m with
    | some chan => .next { system with messageInputChan := chan }
    | none => .blocked
  | .consumeCreate =>
    match system.messageInputChan with
    | [] => .blocked
    | message :: rest =>
      match createConsumer env system.window message with
      | .error reason => .fault reason
      | .ok handled =>
        .next { window := handled.window
                messageInputChan := rest
                updates := system.updates ++ handled.queued
                notifications := system.notifications ++ handled.notifications }
  | .loadChannel channel =>
    match system.window.LoadChannel env channel with
    | .error reason => .fault reason
    | .ok window => .next { system with window := window }
  | .runUpdate =>
    match system.updates with
    | [] => .blocked
    | update :: rest =>
      match update.run env system.window with
      | .error reason => .fault reason
      | .ok window => .next { system with window := window, updates := rest }

/-- A schedule: the steps taken, in order. -/
def System.run (env : Session) : System → List Step → Outcome System
  | system, [] => .next system
  | system, step :: rest =>
    match system.step env step with
    | .next following => System.run env following rest
    | .blocked => .blocked
    | .fault reason => .fault reason

/-! ## Background refresh of the member list -/

/-- Where a refresh goroutine of the guild select handler stands: started by
`go func()`; having stored the address of its fresh channel in
`killCurrentGuildUpdateThread`; blocked in `select` on the channel that the
field pointed to when it entered; having received the stop signal. -/
inductive TaskPhase
  | started
  | registered (chan : Nat)
  | waiting (chan : Nat)
  | stopping
  deriving DecidableEq, Repr

/-- A live refresh goroutine and the guild its closure is bound to. -/
structure RefreshTask where
  guild : String
  phase : TaskPhase
  deriving DecidableEq, Repr

/-- The part of the window that the refresh goroutines share, with the
goroutines themselves.  Channels are numbered in the order they are made;
`signals` lists the channels a stop signal was sent on. -/
structure Supervisor where
  killCurrentGuildUpdateThread : Option Nat
  selectedGuild : Option String
  tasks : List RefreshTask
  nextChan : Nat
  signals : List Nat
  deriving DecidableEq, Repr

/-- Delivery of the stop signal: the first goroutine blocked on the channel
receives it. -/
def deliverStop (chan : Nat) : List RefreshTask → Option (List RefreshTask)
  | [] => none
  | task :: rest =>
    if task.phase = TaskPhase.waiting chan then
      some ({ task with phase := TaskPhase.stopping } :: rest)
    else (deliverStop chan rest).map (fun others => task :: others)

/-- The selected-handler of a guild node.  `channelsFetched` tells whether
`discord.GuildChannels` succeeded.  The send on the unbuffered channel blocks
until a goroutine receives. -/
def Supervisor.selectGuild (supervisor : Supervisor) (guild : String)
    (channelsFetched : Bool) : Outcome Supervisor :=
  let signalled : Option Supervisor :=
    match supervisor.killCurrentGuildUpdateThread with
    | none => some supervisor
    | some chan =>
      (deliverStop chan supervisor.tasks).map (fun tasks =>
        { supervisor with tasks := tasks, signals := supervisor.signals ++ [chan] })
  match signalled with
  | none => .blocked
  | some after =>
    if channelsFetched then
      .next { after with
                selectedGuild := some guild
                tasks := after.tasks ++ [{ guild := guild, phase := TaskPhase.started }] }
    else .next { after with selectedGuild := some guild }

/-- Entry into `select`: the channel expression
`*window.killCurrentGuildUpdateThread` is evaluated then. -/
def enterSelect (supervisor : Supervisor) : Except Fault TaskPhase :=
  match supervisor.killCurrentGuildUpdateThread with
  | none => .error Fault.nilDereference
  | some chan => .ok (TaskPhase.waiting chan)

/-- The next move of the goroutine at position `index`: register its channel,
enter `select`, take a tick and enter `select` again, or clear the field and
return. -/
def Supervisor.taskStep (supervisor : Supervisor) (index : Nat) : Outcome Supervisor :=
  match supervisor.tasks.get? index with
  | none => .blocked
  | some task =>
    match task.phase with
    | .started =>
      .next { supervisor with
                killCurrentGuildUpdateThread := some supervisor.nextChan
                nextChan := supervisor.nextChan + 1
                tasks := supervisor.tasks.set index
                  { task with phase := TaskPhase.registered supervisor.nextChan } }
    | .registered _ =>
      match enterSelect supervisor with
      | .error reason => .fault reason
      | .ok phase =>
        .next { supervisor with
                  tasks := supervisor.tasks.set index { task with phase := phase } }
    | .waiting _ =>
      match enterSelect supervisor with
      | .error reason => .fault reason
      | .ok phase =>
        .next { supervisor with
                  tasks := supervisor.tasks.set index { task with phase := phase } }
    | .stopping =>
      .next { supervisor with
                killCurrentGuildUpdateThread := none
                tasks := supervisor.tasks.eraseIdx index }

/-- A step of the refresh machinery: a guild node is selected, or the goroutine
at a position moves. -/
inductive RefreshStep
  | select (guild : String) (channelsFetched : Bool)
  | task (index : Nat)
  deriving DecidableEq, Repr

/-- One step of the refresh machinery. -/
def Supervisor.step (supervisor : Supervisor) : RefreshStep → Outcome Supervisor
  | .select guild channelsFetched => supervisor.selectGuild guild channelsFetched
  | .task index => supervisor.taskStep index

/-- A schedule of the refresh machinery. -/
def Supervisor.run : Supervisor → List RefreshStep → Outcome Supervisor
  | supervisor, [] => .next supervisor
  | supervisor, step :: rest =>
    match supervisor.step step with
    | .next following => Supervisor.run following rest
    | .blocked => .blocked
    | .fault reason => .fault reason

/-- Position of the first goroutine that is not blocked in `select`. -/
def firstUnsettled : List RefreshTask → Option Nat
  | [] => none
  | task :: rest =>
    match task.phase with
    | .waiting _ => (firstUnsettled rest).map (· + 1)
    | _ => some 0

/-- The goroutines run, oldest first, until each is gone or blocked in
`select`, for at most `fuel` moves. -/
def Supervisor.settle : Nat → Supervisor → Outcome Supervisor
  | 0, supervisor => .next supervisor
  | fuel + 1, supervisor =>
    match firstUnsettled supervisor.tasks with
    | none => .next supervisor
    | some index =>
      match supervisor.taskStep index with
      | .next following => Supervisor.settle fuel following
      | .blocked => .blocked
      | .fault reason => .fault reason

/-- A guild selection after which the goroutines settle before anything else
happens: a stopped goroutine returns, then the new one registers its channel
and enters `select`. -/
def Supervisor.selectSettled (supervisor : Supervisor) (selection : String × Bool) :
    Outcome Supervisor :=
  match supervisor.selectGuild selection.1 selection.2 with
  | .next following => Supervisor.settle 3 following
  | .blocked => .blocked
  | .fault reason => .fault reason

/-- A sequence of guild selections, each settling before the next. -/
def Supervisor.selectAll : Supervisor → List (String × Bool) → Outcome Supervisor
  | supervisor, [] => .next supervisor
  | supervisor, selection :: rest =>
    match supervisor.selectSettled selection with
    | .next following => Supervisor.selectAll following rest
    | .blocked => .blocked
    | .fault reason => .fault reason

/-- The refresh machinery of a new window: no guild selected, no goroutine. -/
def Supervisor.initial : Supervisor :=
  { killCurrentGuildUpdateThread := none
    selectedGuild := none
    tasks := []
    nextChan := 0
    signals := [] }

/-- At most one goroutine is outstanding; it is blocked on the registered
channel and bound to the selected guild. -/
def Supervisor.Tidy (supervisor : Supervisor) : Prop :=
  (supervisor.tasks = [] ∧ supervisor.killCurrentGuildUpdateThread = none) ∨
  ∃ guild chan,
    supervisor.tasks = [{ guild := guild, phase := TaskPhase.waiting chan }] ∧
    supervisor.killCurrentGuildUpdateThread = some chan ∧
    supervisor.selectedGuild = some guild

/-! ## What LoadChannel returns -/

/-- What `Window.LoadChannel` hands to its caller: the `error` it returns
(`none` for `nil`) and the window it leaves.  `return nil` is its only return
statement; the error of the remote fetch lives in a variable of the inner
block and is read only to decide the write to the cache. -/
def Window.LoadChannelReturn (env : Session) (window : Window) (channel : Channel) :
    Except Fault (Option String × Window) :=
  match window.LoadChannel env channel with
  | .error fault => .error fault
  | .ok loaded => .ok (none, loaded)

/-- The selected-handler that `registerChannelForChatting` gives a channel
node: whether it shows the error dialog for a failed load. -/
def channelNodeShowsError (env : Session) (window : Window) (channel : Channel) :
    Except Fault Bool :=
  match window.LoadChannelReturn env channel with
  | .error fault => .error fault
  | .ok (discordError, _) => .ok discordError.isSome

/-! ## Commands -/

/-- `strings.Split(text, " ")` on the characters of the text: the pieces
between the spaces, in order. -/
def splitSpaces : List Char → List (List Char)
  | [] => [[]]
  | c :: rest =>
    if c = ' ' then [] :: splitSpaces rest
    else
      match splitSpaces rest with
      | [] => [[c]]
      | part :: parts => (c :: part) :: parts

/-- `strings.Split(text, " ")`. -/
def stringsSplit (text : String) : List String :=
  (splitSpaces text.data).map String.mk

/-- `strings.Join(parts, " ")` on characters. -/
def joinSpaces : List (List Char) → List Char
  | [] => []
  | [part] => part
  | part :: rest => part ++ ' ' :: joinSpaces rest

/-- The registry `window.commands`: the handler stored under a name, if any.
`α` is the type of handlers, `func(io.Writer, *Window, []string)`. -/
abbrev Commands (α : Type) := String → Option α

/-- `Window.RegisterCommand`: `window.commands[name] = logic`. -/
def RegisterCommand {α : Type} (commands : Commands α) (name : String) (logic : α) :
    Commands α :=
  fun key => if key = name then some logic else commands key

/-- What `ExecuteCommand` does with the command output: it calls a handler
with the output and the parameters, or prints a text to the output. -/
inductive CommandEffect (α : Type)
  | invoked (logic : α) (parameters : List String)
  | printed (text : String)

/-- `Window.ExecuteCommand`. -/
def ExecuteCommand {α : Type} (commands : Commands α) (command : String) :
    Except Fault (CommandEffect α) :=
  match stringsSplit command with
  | [] => .error Fault.indexOutOfRange
  | name :: parameters =>
    match commands name with
    | some commandLogic => .ok (CommandEffect.invoked commandLogic parameters)
    | none => .ok (CommandEffect.printed ("The command '" ++ name ++ "' doesn't exist\n"))

/-! ## The message input -/

/-- The keys that the input capture of the message input tells apart. -/
inductive Key
  | Up
  | Esc
  | Enter
  | Other
  deriving DecidableEq, Repr

/-- The loop of the Up handler, `for i := len(shown) - 1; i > 0; i--`, from
index `i` on: the first message met whose author is the given user. -/
def lastOwnFrom (userID : String) (shown : List Message) : Nat → Option Message
  | 0 => none
  | i + 1 =>
    match shown[i + 1]? with
    | some message =>
      if message.Author.ID = userID then some message else lastOwnFrom userID shown i
    | none => lastOwnFrom userID shown i

/-- What the input capture starts besides writing to the window: the goroutine
`window.editMessage`, the goroutine that sends a message, or the dialog that
asks whether to delete. -/
inductive InputAction
  | nothing
  | edit (channelID messageID messageEdited : String)
  | send (channelID content : String)
  | confirmDelete
  deriving DecidableEq, Repr

/-- The outcome of the input capture for one key: the window after it, what it
started, and whether it handed the key on to the editor. -/
structure Captured where
  window : Window
  action : InputAction
  passedOn : Bool
  deriving DecidableEq, Repr

/-- The input capture of the message input.  `prepare` is the chain of
replacements (channel names, emoji codes, mentions) applied to the text before
it is sent. -/
def Window.inputCapture (env : Session) (prepare : String → String) (window : Window)
    (key : Key) : Captured :=
  let messageToSend := window.messageInputText
  if key = Key.Up ∧ messageToSend = "" then
    match lastOwnFrom env.userID window.shownMessages (window.shownMessages.length - 1) with
    | some message =>
      { window := { window with
                      messageInputText := env.contentWithMentionsReplaced message
                      editingMessageID := some message.ID }
        action := InputAction.nothing
        passedOn := false }
    | none => { window := window, action := InputAction.nothing, passedOn := false }
  else if key = Key.Esc then
    { window := window.exitMessageEditMode, action := InputAction.nothing, passedOn := false }
  else if key = Key.Enter then
    match window.selectedChannel with
    | some selected =>
      if messageToSend.length ≠ 0 then
        match window.editingMessageID with
        | some messageID =>
          { window := Window.exitMessageEditMode { window with messageInputText := "" }
            action := InputAction.edit selected.ID messageID (prepare messageToSend)
            passedOn := false }
        | none =>
          { window := { window with messageInputText := "" }
            action := InputAction.send selected.ID (prepare messageToSend)
            passedOn := false }
      else
        match window.editingMessageID with
        | some _ =>
          { window := { window with messageInputText := "" }
            action := InputAction.confirmDelete
            passedOn := false }
        | none =>
          { window := { window with messageInputText := "" }
            action := InputAction.nothing
            passedOn := false }
    | none => { window := window, action := InputAction.nothing, passedOn := true }
  else { window := window, action := InputAction.nothing, passedOn := true }

/-- The done-handler of the delete dialog: with the button at index 1 it reads
`*window.editingMessageID` and `window.selectedChannel.ID` for the delete
call; in either case it leaves edit mode. -/
def Window.deleteDialogDone (window : Window) (index : Nat) : Except Fault Window :=
  if index = 1 then
    match window.editingMessageID, window.selectedChannel with
    | some _, some _ => .ok window.exitMessageEditMode
    | _, _ => .error Fault.nilDereference
  else .ok window.exitMessageEditMode

/-- The window that `NewWindow` returns, as far as the event pipeline goes. -/
def Window.initial : Window :=
  { shownMessages := []
    selectedChannel := none
    editingMessageID := none
    channelTitle := ""
    messageInputText := ""
    channelNodes := [] }

/-- The operations on a window: a channel is loaded, the visible sequence is
set or appended to, a key reaches the input capture, the editor that receives
the keys handed on replaces its text, the delete dialog is answered, a user
edit runs with the result of the remote call. -/
inductive WindowOp
  | loadChannel (channel : Channel)
  | setMessages (messages : List Message)
  | addMessages (messages : List Message)
  | key (key : Key)
  | typed (text : String)
  | dialogDone (index : Nat)
  | editMessage (result : Except String Message)

/-- Whether the operation is a direct call of `SetMessages` or `AddMessages`. -/
def WindowOp.writesShown : WindowOp → Bool
  | .setMessages _ => true
  | .addMessages _ => true
  | _ => false

/-- One operation on the window. -/
def Window.applyOp (env : Session) (prepare : String → String) (window : Window) :
    WindowOp → Except Fault Window
  | .loadChannel channel => window.LoadChannel env channel
  | .setMessages messages => .ok (window.SetMessages messages)
  | .addMessages messages => .ok (window.AddMessages messages)
  | .key key => .ok (window.inputCapture env prepare key).window
  | .typed text => .ok { window with messageInputText := text }
  | .dialogDone index => window.deleteDialogDone index
  | .editMessage result => window.editMessage env result

/-- Operations one after the other. -/
def Window.applyOps (env : Session) (prepare : String → String) :
    Window → List WindowOp → Except Fault Window
  | window, [] => .ok window
  | window, op :: rest =>
    match window.applyOp env prepare op with
    | .error fault => .error fault
    | .ok next => Window.applyOps env prepare next rest

/-- In the run of the operations from the window, `SetMessages` and
`AddMessages` are called directly only while a channel is selected. -/
def WritesWhileSelected (env : Session) (prepare : String → String) :
    Window → List WindowOp → Prop
  | _, [] => True
  | window, op :: rest =>
    (op.writesShown = true → window.selectedChannel ≠ none) ∧
    ∀ next, window.applyOp env prepare op = .ok next →
      WritesWhileSelected env prepare next rest

/-- With no channel selected, nothing is shown and no edit target is set. -/
def Window.Settled (window : Window) : Prop :=
  window.selectedChannel = none →
    window.shownMessages = [] ∧ window.editingMessageID = none

/-! ## The member list -/

/-- A role of a guild as the window reads it. -/
structure Role where
  ID : String
  Name : String
  Position : Int
  Hoist : Bool
  deriving DecidableEq, Repr

/-- A member of a guild as the window reads it; `Roles` holds role ids. -/
structure Member where
  Nick : String
  User : User
  Roles : List String
  deriving DecidableEq, Repr

/-- The guild that `UpdateUsersForGuild` reads back from the state. -/
structure GuildState where
  ID : String
  Roles : List Role
  Members : List Member
  deriving DecidableEq, Repr

/-- A node directly below `userRootNode`.  `key` is the key under which the
map `roleNodes` holds the node (`none` for the node "No Hoist Role");
`children` are the members whose nodes were added to it, in that order. -/
structure UserGroup where
  key : Option String
  text : String
  children : List Member
  deriving DecidableEq, Repr

/-- The text of the node made for a member. -/
def nameToUse (user : Member) : String :=
  if user.Nick ≠ "" then user.Nick else user.User.Username

/-- The comparator given to `sort.Slice(roles, …)`. -/
def rolePositionGreater (a b : Role) : Bool := decide (a.Position > b.Position)

/-- The loop of the second comparator over the roles: the last role with the
first identifier and, among the roles that do not have the first identifier,
the last with the second. -/
def findRolePair (firstIdentifier secondIdentifier : String) :
    List Role → Option Role × Option Role → Option Role × Option Role
  | [], found => found
  | role :: rest, (firstRole, secondRole) =>
    if role.ID = firstIdentifier then
      findRolePair firstIdentifier secondIdentifier rest (some role, secondRole)
    else if role.ID = secondIdentifier then
      findRolePair firstIdentifier secondIdentifier rest (firstRole, some role)
    else findRolePair firstIdentifier secondIdentifier rest (firstRole, secondRole)

/-- The comparator given to `sort.Slice(user.Roles, …)`; it reads `Position`
through both pointers, found or not. -/
def memberRoleLess (roles : List Role) (firstIdentifier secondIdentifier : String) :
    Except Fault Bool :=
  match findRolePair firstIdentifier secondIdentifier roles (none, none) with
  | (some firstRole, some secondRole) =>
    .ok (decide (firstRole.Position > secondRole.Position))
  | _ => .error Fault.nilDereference

/-- The insertion step of `insertByLess` for a comparator that can fault. -/
def insertByLessM {α : Type} (less : α → α → Except Fault Bool) (x : α) :
    List α → Except Fault (List α)
  | [] => .ok [x]
  | y :: ys =>
    match less x y with
    | .error fault => .error fault
    | .ok true => .ok (x :: y :: ys)
    | .ok false =>
      match insertByLessM less x ys with
      | .error fault => .error fault
      | .ok inserted => .ok (y :: inserted)

/-- The library call `sort.Slice` as in `sortSlice`, for a comparator that can
fault: the elements of the second list are inserted into the first.  Which
pairs the library compares is its own matter; the theorems use this sort only
where every comparison of two different elements succeeds. -/
def sortSliceM {α : Type} (less : α → α → Except Fault Bool) :
    List α → List α → Except Fault (List α)
  | sorted, [] => .ok sorted
  | sorted, x :: xs =>
    match insertByLessM less x sorted with
    | .error fault => .error fault
    | .ok next => sortSliceM less next xs

/-- The nodes made for the hoisted roles, in the order of the roles. -/
def roleGroups (roles : List Role) : List UserGroup :=
  (roles.filter (fun role => role.Hoist)).map
    (fun role => { key := some role.ID, text := role.Name, children := [] })

/-- The node "No Hoist Role". -/
def nonHoistGroup : UserGroup := { key := none, text := "No Hoist Role", children := [] }

/-- `AddChild` on the node that the map holds for the key: of the nodes stored
under a key the map keeps the last. -/
def addChild (key : Option String) (user : Member) : List UserGroup → List UserGroup
  | [] => []
  | group :: rest =>
    if rest.any (fun other => other.key == key) then group :: addChild key user rest
    else if group.key = key then { group with children := group.children ++ [user] } :: rest
    else group :: rest

/-- The loop over the sorted role ids of a member: the first id that
`roleNodes` has a node for. -/
def firstHoisted (roles : List Role) : List String → Option String
  | [] => none
  | userRole :: rest =>
    if roles.any (fun role => role.Hoist && role.ID == userRole) then some userRole
    else firstHoisted roles rest

/-- The loop `USER` over the members. -/
def placeUsers (roles : List Role) : List UserGroup → List Member →
    Except Fault (List UserGroup)
  | groups, [] => .ok groups
  | groups, user :: rest =>
    match sortSliceM (memberRoleLess roles) [] user.Roles with
    | .error fault => .error fault
    | .ok userRoles => placeUsers roles (addChild (firstHoisted roles userRoles) user groups) rest

/-- The children of `userRootNode` after the update that `UpdateUsersForGuild`
queues has run for the guild. -/
def rebuildUserTree (guildState : GuildState) : Except Fault (List UserGroup) :=
  let roles := sortSlice rolePositionGreater guildState.Roles
  placeUsers roles (roleGroups roles ++ [nonHoistGroup]) guildState.Members

/-- `Window.UpdateUsersForGuild`, given the guild read back from the state
(`none` when one of the three calls before failed, in which case it returns).
`userNodes` are the children of `userRootNode` before. -/
def UpdateUsersForGuild (refreshed : Option GuildState) (userNodes : List UserGroup) :
    Except Fault (List UserGroup) :=
  match refreshed with
  | none => .ok userNodes
  | some guildState => rebuildUserTree guildState

/-- All member nodes of the tree, group after group. -/
def allChildren : List UserGroup → List Member
  | [] => []
  | group :: rest => group.children ++ allChildren rest

/-- The position of the first role with the id (0 when there is none). -/
def positionOf (roles : List Role) (id : String) : Int :=
  match roles.find? (fun role => role.ID == id) with
  | some role => role.Position
  | none => 0

/-- Role ids compared by the positions of the roles they name. -/
def positionGreater (roles : List Role) (a b : String) : Bool :=
  decide (positionOf roles a > positionOf roles b)

/-- The rule by which a member's node sits in a group: under a role key, the
member holds that role id, a role of that id is hoisted, and no hoisted role
the member holds has a greater position; under no key, no role the member
holds is hoisted. -/
def PlacedByRule (roles : List Role) (key : Option String) (user : Member) : Prop :=
  match key with
  | some id =>
    id ∈ user.Roles ∧
    ∃ role ∈ roles, role.ID = id ∧ role.Hoist = true ∧
      ∀ other ∈ roles, other.ID ∈ user.Roles → other.Hoist = true →
        other.Position ≤ role.Position
  | none => ∀ role ∈ roles, role.ID ∈ user.Roles → role.Hoist = false

/-- The role ids of the member are distinct and each names one role of the
guild. -/
def Member.WellFormed (roles : List Role) (user : Member) : Prop :=
  user.Roles.Nodup ∧
  ∀ id ∈ user.Roles,
    ∃ role ∈ roles, role.ID = id ∧ ∀ other ∈ roles, other.ID = id → other = role

/-! ## Orderedness -/

/-- Ordered by the comparator of `LoadChannel`: no message is less than one
that stands before it. -/
abbrev SortedByTimestamp (parse : String → Option Int) (messages : List Message) : Prop :=
  messages.Pairwise (fun a b => timestampLess parse b a = false)

/-! ## Sample data -/

/-- The logged-in user of the samples. -/
def sampleSelf : User := { ID := "1", Username := "self" }

/-- Another user. -/
def sampleFriend : User := { ID := "2", Username := "friend" }

/-- A guild text channel, open in the samples. -/
def sampleGeneral : Channel :=
  { ID := "general", Name := "general", Topic := "", Typ := ChannelType.GuildText,
    LastMessageID := "", Messages := [], Recipients := [] }

/-- A second guild text channel. -/
def sampleRandom : Channel :=
  { ID := "random", Name := "random", Topic := "", Typ := ChannelType.GuildText,
    LastMessageID := "", Messages := [], Recipients := [] }

/-- Timestamps of the samples: the decimal texts "1", "2" and "3" parse, every
other text is a parse error. -/
def sampleParse (text : String) : Option Int :=
  if text = "1" then some 1 else if text = "2" then some 2
  else if text = "3" then some 3 else none

/-- The cache of the samples holds the two guild channels. -/
def sampleStateChannel (channelID : String) : Option Channel :=
  if channelID = "general" then some sampleGeneral
  else if channelID = "random" then some sampleRandom else none

/-- Collaborator answers of the samples; every remote fetch returns nothing. -/
def sampleSession : Session :=
  { userID := "1"
    parse := sampleParse
    stateChannel := sampleStateChannel
    channelMessages := fun _ => ([], none)
    contentWithMentionsReplaced := fun message => message.Content }

/-- A message with the given identifier, channel, timestamp and author. -/
def sampleMessage (id channelID timestamp : String) (author : User) : Message :=
  { ID := id, ChannelID := channelID, Content := "hello", Timestamp := timestamp,
    Author := author, Mentions := [] }

/-- A window with the given visible sequence and `sampleGeneral` open. -/
def sampleWindow (shown : List Message) : Window :=
  { shownMessages := shown
    selectedChannel := some sampleGeneral
    editingMessageID := none
    channelTitle := "general"
    messageInputText := ""
    channelNodes := [{ reference := some "general", text := "general", color := Color.Teal },
                     { reference := some "random", text := "random", color := Color.White }] }

/-- A window in which no channel has been selected yet. -/
def sampleIdleWindow : Window :=
  { sampleWindow [] with selectedChannel := none, channelTitle := "" }

/-- A message of another user for the channel `sampleGeneral`. -/
def sampleGreeting : Message := sampleMessage "10" "general" "1" sampleFriend

/-- The system at rest with `sampleGeneral` open and nothing shown. -/
def sampleSystem : System :=
  { window := sampleWindow []
    messageInputChan := []
    updates := []
    notifications := [] }

/-- A channel that carries its history inline: stamped "2", then a stamp that
does not parse, then "1". -/
def sampleHistory : Channel :=
  { sampleRandom with
      Messages := [sampleMessage "c" "random" "2" sampleFriend,
                   sampleMessage "d" "random" "later" sampleFriend,
                   sampleMessage "e" "random" "1" sampleSelf] }

/-- A channel that has a last message, carries no history inline and is in
the cache of the samples with no messages. -/
def sampleUnloaded : Channel := { sampleRandom with LastMessageID := "99" }

/-- Collaborator answers of the samples when the remote fetch fails. -/
def sampleOfflineSession : Session :=
  { sampleSession with channelMessages := fun _ => ([], some "request failed") }

/-- A direct channel that has a last message, carries no history inline and is
not in the cache of the samples. -/
def sampleDirect : Channel :=
  { ID := "dm-1", Name := "", Topic := "", Typ := ChannelType.DM,
    LastMessageID := "7", Messages := [], Recipients := [sampleFriend] }

/-- Collaborator answers of the samples when the remote fetch returns one
message. -/
def sampleOnlineSession : Session :=
  { sampleSession with
      channelMessages := fun channelID =>
        ([sampleMessage "7" channelID "1" sampleFriend], none) }

/-- A visible sequence whose first and third message are the current
user's. -/
def sampleOwnShown : List Message :=
  [sampleMessage "m0" "general" "1" sampleSelf,
   sampleMessage "m1" "general" "2" sampleFriend,
   sampleMessage "m2" "general" "3" sampleSelf,
   sampleMessage "m3" "general" "3" sampleFriend]

/-- A visible sequence whose only message of the current user is the first. -/
def sampleOwnFirstOnly : List Message :=
  [sampleMessage "m0" "general" "1" sampleSelf,
   sampleMessage "m1" "general" "2" sampleFriend]

/-- A channel that carries `sampleOwnShown` inline. -/
def sampleOwnHistory : Channel := { sampleGeneral with Messages := sampleOwnShown }

/-- A guild with two hoisted roles and one that is not, and three members. -/
def sampleGuild : GuildState :=
  { ID := "guild"
    Roles := [{ ID := "r-mod", Name := "Moderators", Position := 2, Hoist := true },
              { ID := "r-all", Name := "everyone", Position := 0, Hoist := false },
              { ID := "r-admin", Name := "Admins", Position := 3, Hoist := true }]
    Members := [{ Nick := "", User := sampleSelf, Roles := ["r-all", "r-mod", "r-admin"] },
                { Nick := "Bob", User := sampleFriend, Roles := ["r-all"] },
                { Nick := "Carol", User := sampleFriend, Roles := ["r-mod"] }] }

/-! ## Theorems -/

/-- C1: in the create consumer, with a channel open and the channel of the
message found in the cache, a notification is dispatched exactly when the
author is not the current user, the message is not for the open channel, and
the current user is mentioned or the channel is a direct or group
conversation; at most one notification is dispatched. -/
theorem created_notifies_iff (env : Session) (window : Window) (message : Message)
    (selected channel : Channel)
    (hsel : window.selectedChannel = some selected)
    (hch : env.stateChannel message.ChannelID = some channel) :
    ∃ handled, createConsumer env window message = .ok handled ∧
      handled.notifications.length ≤ 1 ∧
      (handled.notifications ≠ [] ↔
        (message.Author.ID ≠ env.userID ∧ message.ChannelID ≠ selected.ID ∧
          ((∃ user ∈ message.Mentions, user.ID = env.userID) ∨
            channel.Typ = ChannelType.DM ∨ channel.Typ = ChannelType.GroupDM))) := by
  unfold createConsumer
  rw [hsel]
  by_cases h1 : message.ChannelID = selected.ID
  · simp [h1]
  · by_cases h2 : message.Author.ID = env.userID
    · simp [h1, h2]
    · simp only [h1, h2, hch, if_false, ne_eq, not_false_eq_true, if_true, true_and]
      refine ⟨_, rfl, ?_, ?_⟩
      · split <;> simp
      · simp only [List.any_eq_true, beq_iff_eq, Bool.or_eq_true]
        split <;> simp_all

/-- C1 at a concrete input: a message of another user that mentions the current
user, for a guild text channel that is not open. -/
theorem created_notifies_iff_witness :
    (sampleWindow []).selectedChannel = some sampleGeneral ∧
    sampleSession.stateChannel
      ({ sampleMessage "10" "random" "1" sampleFriend with Mentions := [sampleSelf] }).ChannelID
        = some sampleRandom ∧
    ∃ handled, createConsumer sampleSession (sampleWindow [])
        { sampleMessage "10" "random" "1" sampleFriend with Mentions := [sampleSelf] }
          = .ok handled ∧
      handled.notifications.length ≤ 1 ∧
      (handled.notifications ≠ [] ↔
        (({ sampleMessage "10" "random" "1" sampleFriend with
              Mentions := [sampleSelf] } : Message).Author.ID ≠ sampleSession.userID ∧
          ({ sampleMessage "10" "random" "1" sampleFriend with
              Mentions := [sampleSelf] } : Message).ChannelID ≠ sampleGeneral.ID ∧
          ((∃ user ∈ ({ sampleMessage "10" "random" "1" sampleFriend with
              Mentions := [sampleSelf] } : Message).Mentions, user.ID = sampleSession.userID) ∨
            sampleRandom.Typ = ChannelType.DM ∨ sampleRandom.Typ = ChannelType.GroupDM))) :=
  ⟨rfl, by decide, created_notifies_iff sampleSession (sampleWindow []) _ sampleGeneral
    sampleRandom rfl (by decide)⟩

/-! ### Sorting -/

theorem insertByLess_perm {α : Type} (less : α → α → Bool) (x : α) (xs : List α) :
    (insertByLess less x xs).Perm (x :: xs) := by
  induction xs with
  | nil => exact List.Perm.refl _
  | cons y ys ih =>
    unfold insertByLess
    split
    · exact List.Perm.refl _
    · exact (List.Perm.cons y ih).trans (List.Perm.swap x y ys)

theorem foldl_insertByLess_perm {α : Type} (less : α → α → Bool) (xs sorted : List α) :
    (xs.foldl (fun sorted x => insertByLess less x sorted) sorted).Perm (sorted ++ xs) := by
  induction xs generalizing sorted with
  | nil => simp
  | cons x xs ih =>
    simp only [List.foldl_cons]
    refine (ih _).trans ?_
    refine (List.Perm.append_right xs (insertByLess_perm less x sorted)).trans ?_
    exact (List.perm_middle : (sorted ++ x :: xs).Perm (x :: (sorted ++ xs))).symm

theorem sortSlice_perm {α : Type} (less : α → α → Bool) (xs : List α) :
    (sortSlice less xs).Perm xs := by
  simpa [sortSlice] using foldl_insertByLess_perm less xs []

theorem insertByLess_pairwise {α : Type} (less : α → α → Bool)
    (hasymm : ∀ a b, less a b = true → less b a = false)
    (htrans : ∀ a b c, less a b = true → less b c = true → less a c = true)
    (x : α) (xs : List α) (hxs : xs.Pairwise (fun a b => less b a = false)) :
    (insertByLess less x xs).Pairwise (fun a b => less b a = false) := by
  induction xs with
  | nil => simp [insertByLess]
  | cons y ys ih =>
    rw [List.pairwise_cons] at hxs
    unfold insertByLess
    by_cases hxy : less x y = true
    · simp only [hxy, if_true]
      refine List.Pairwise.cons ?_ (List.Pairwise.cons hxs.1 hxs.2)
      intro z hz
      rcases List.mem_cons.1 hz with rfl | hz
      · exact hasymm _ _ hxy
      · cases hzx : less z x with
        | false => rfl
        | true =>
          have := htrans z x y hzx hxy
          rw [hxs.1 z hz] at this
          exact absurd this (by simp)
    · simp only [hxy, if_false]
      refine List.Pairwise.cons ?_ (ih hxs.2)
      intro z hz
      rcases List.mem_cons.1 ((insertByLess_perm less x ys).subset hz) with rfl | hz
      · simpa using hxy
      · exact hxs.1 z hz

theorem sortSlice_pairwise {α : Type} (less : α → α → Bool)
    (hasymm : ∀ a b, less a b = true → less b a = false)
    (htrans : ∀ a b c, less a b = true → less b c = true → less a c = true)
    (xs : List α) :
    (sortSlice less xs).Pairwise (fun a b => less b a = false) := by
  unfold sortSlice
  suffices h : ∀ sorted : List α, sorted.Pairwise (fun a b => less b a = false) →
      (xs.foldl (fun sorted x => insertByLess less x sorted) sorted).Pairwise
        (fun a b => less b a = false) from h [] List.Pairwise.nil
  induction xs with
  | nil => intro sorted h; simpa using h
  | cons x xs ih =>
    intro sorted h
    simp only [List.foldl_cons]
    exact ih _ (insertByLess_pairwise less hasymm htrans x sorted h)

/-! ### The comparator -/

theorem timestampLess_eq_true (parse : String → Option Int) (a b : Message) :
    timestampLess parse a b = true ↔
      ∃ timeA, parse a.Timestamp = some timeA ∧
        ∀ timeB, parse b.Timestamp = some timeB → timeA < timeB := by
  unfold timestampLess
  cases ha : parse a.Timestamp with
  | none => simp
  | some timeA =>
    cases hb : parse b.Timestamp with
    | none => simp
    | some timeB => simp

theorem timestampLess_eq_false (parse : String → Option Int) (a b : Message) :
    timestampLess parse a b = false ↔
      (parse a.Timestamp = none ∨
        ∃ timeA timeB, parse a.Timestamp = some timeA ∧ parse b.Timestamp = some timeB ∧
          timeB ≤ timeA) := by
  unfold timestampLess
  cases ha : parse a.Timestamp with
  | none => simp
  | some timeA =>
    cases hb : parse b.Timestamp with
    | none => simp
    | some timeB => simp

theorem timestampLess_irrefl (parse : String → Option Int) (a : Message) :
    timestampLess parse a a = false := by
  unfold timestampLess
  cases ha : parse a.Timestamp with
  | none => rfl
  | some timeA => simp

theorem timestampLess_asymm (parse : String → Option Int) (a b : Message)
    (hab : timestampLess parse a b = true) : timestampLess parse b a = false := by
  rw [timestampLess_eq_true] at hab
  rw [timestampLess_eq_false]
  obtain ⟨timeA, ha, hlt⟩ := hab
  cases hb : parse b.Timestamp with
  | none => exact Or.inl rfl
  | some timeB => exact Or.inr ⟨timeB, timeA, rfl, ha, le_of_lt (hlt timeB hb)⟩

theorem timestampLess_trans (parse : String → Option Int) (a b c : Message)
    (hab : timestampLess parse a b = true) (hbc : timestampLess parse b c = true) :
    timestampLess parse a c = true := by
  rw [timestampLess_eq_true] at hab hbc ⊢
  obtain ⟨timeA, ha, hlt⟩ := hab
  obtain ⟨timeB, hb, hlt2⟩ := hbc
  exact ⟨timeA, ha, fun timeC hc => lt_trans (hlt timeB hb) (hlt2 timeC hc)⟩

theorem timestampLess_incomparable_trans (parse : String → Option Int) (a b c : Message)
    (hab : timestampLess parse a b = false) (hba : timestampLess parse b a = false)
    (hbc : timestampLess parse b c = false) (hcb : timestampLess parse c b = false) :
    timestampLess parse a c = false ∧ timestampLess parse c a = false := by
  rw [timestampLess_eq_false] at hab hba hbc hcb ⊢
  rw [timestampLess_eq_false]
  cases ha : parse a.Timestamp <;> cases hb : parse b.Timestamp <;>
    cases hc : parse c.Timestamp <;> simp_all
  omega

/-! ### SetMessages and LoadChannel -/

/-- C2, as the code has it: `SetMessages` shows exactly the list it is given,
in the order given, and touches nothing else; the visible sequence is ordered
by timestamp exactly when the list passed already is. -/
theorem setMessages_shows_given (parse : String → Option Int) (window : Window)
    (messages : List Message) :
    (window.SetMessages messages).shownMessages = messages ∧
    (window.SetMessages messages).selectedChannel = window.selectedChannel ∧
    (window.SetMessages messages).editingMessageID = window.editingMessageID ∧
    (SortedByTimestamp parse (window.SetMessages messages).shownMessages ↔
      SortedByTimestamp parse messages) :=
  ⟨rfl, rfl, rfl, Iff.rfl⟩

/-- C2 fails as stated: given a message stamped "2" followed by one stamped
"1", `SetMessages` shows them in that order, which is neither the sorted list
nor ordered by timestamp. -/
theorem setMessages_not_sorted :
    ((sampleWindow []).SetMessages
        [sampleMessage "b" "general" "2" sampleFriend,
         sampleMessage "a" "general" "1" sampleFriend]).shownMessages
      ≠ sortSlice (timestampLess sampleParse)
        [sampleMessage "b" "general" "2" sampleFriend,
         sampleMessage "a" "general" "1" sampleFriend] ∧
    ¬ SortedByTimestamp sampleParse
      ((sampleWindow []).SetMessages
        [sampleMessage "b" "general" "2" sampleFriend,
         sampleMessage "a" "general" "1" sampleFriend]).shownMessages := by
  decide

/-- C3: whenever `LoadChannel` completes, the visible sequence is a permutation
of the history it resolved, ordered ascending by parsed timestamp with every
unparsable timestamp after every parsable one, and the comparator is a strict
weak ordering.  It completes in every case but one: the history is neither
inline nor in the cache, the cache lookup failed and the remote fetch
succeeded, where the write through the nil cache pointer faults. -/
theorem loadChannel_sorted_permutation (env : Session) (window : Window) (channel : Channel) :
    (∀ a, timestampLess env.parse a a = false) ∧
    (∀ a b c, timestampLess env.parse a b = true → timestampLess env.parse b c = true →
      timestampLess env.parse a c = true) ∧
    (∀ a b c, timestampLess env.parse a b = false → timestampLess env.parse b a = false →
      timestampLess env.parse b c = false → timestampLess env.parse c b = false →
      timestampLess env.parse a c = false ∧ timestampLess env.parse c a = false) ∧
    (match window.LoadChannel env channel with
     | .ok loaded =>
       ∃ messages ops, resolveMessages env channel = .ok (messages, ops) ∧
         loaded.shownMessages.Perm messages ∧
         loaded.shownMessages.Pairwise (fun a b =>
           ∀ timeA timeB, env.parse a.Timestamp = some timeA →
             env.parse b.Timestamp = some timeB → timeA ≤ timeB) ∧
         loaded.shownMessages.Pairwise (fun a b =>
           env.parse a.Timestamp = none → env.parse b.Timestamp = none)
     | .error _ =>
       channel.LastMessageID ≠ "" ∧ channel.Messages = [] ∧
         env.stateChannel channel.ID = none ∧ (env.channelMessages channel.ID).2 = none) := by
  refine ⟨timestampLess_irrefl env.parse, timestampLess_trans env.parse,
    timestampLess_incomparable_trans env.parse, ?_⟩
  have hsorted : ∀ messages : List Message,
      (sortSlice (timestampLess env.parse) messages).Pairwise (fun a b =>
        ∀ timeA timeB, env.parse a.Timestamp = some timeA →
          env.parse b.Timestamp = some timeB → timeA ≤ timeB) ∧
      (sortSlice (timestampLess env.parse) messages).Pairwise (fun a b =>
        env.parse a.Timestamp = none → env.parse b.Timestamp = none) := by
    intro messages
    have h := sortSlice_pairwise (timestampLess env.parse) (timestampLess_asymm env.parse)
      (timestampLess_trans env.parse) messages
    constructor
    · refine h.imp ?_
      intro a b hba timeA timeB ha hb
      rw [timestampLess_eq_false] at hba
      rcases hba with hnone | ⟨tb, ta, hb2, ha2, hle⟩
      · rw [hb] at hnone; cases hnone
      · rw [hb] at hb2; rw [ha] at ha2
        cases hb2; cases ha2; exact hle
    · refine h.imp ?_
      intro a b hba ha
      rw [timestampLess_eq_false] at hba
      rcases hba with hnone | ⟨tb, ta, _, ha2, _⟩
      · exact hnone
      · rw [ha] at ha2; cases ha2
  unfold Window.LoadChannel
  cases hres : resolveMessages env channel with
  | ok resolved =>
    obtain ⟨messages, ops⟩ := resolved
    exact ⟨messages, ops, rfl, sortSlice_perm _ messages, (hsorted messages).1,
      (hsorted messages).2⟩
  | error fault =>
    simp only
    unfold resolveMessages at hres
    split at hres
    · rename_i hcond
      split at hres
      · rename_i hcache
        split at hres
        · rename_i hfetch
          refine ⟨hcond.1, List.length_eq_zero.1 hcond.2, hcache, ?_⟩
          rw [hfetch]
        · cases hres
      · split at hres
        · split at hres <;> cases hres
        · cases hres
    · cases hres

/-- C3 at a concrete input: a history stamped "2", unparsable, "1" is shown in
the order "1", "2", unparsable. -/
theorem loadChannel_sorted_permutation_witness :
    ((sampleWindow []).LoadChannel sampleSession sampleHistory).map
        (fun loaded => loaded.shownMessages) =
      .ok [sampleMessage "e" "random" "1" sampleSelf,
           sampleMessage "c" "random" "2" sampleFriend,
           sampleMessage "d" "random" "later" sampleFriend] ∧
    (∀ a, timestampLess sampleSession.parse a a = false) :=
  ⟨by rfl, (loadChannel_sorted_permutation sampleSession (sampleWindow []) sampleHistory).1⟩

/-! ### The loops over the visible sequence -/

theorem firstIndexWithID_absent (id : String) (shown : List Message)
    (habsent : ∀ message ∈ shown, message.ID ≠ id) : firstIndexWithID id shown = none := by
  induction shown with
  | nil => rfl
  | cons message rest ih =>
    have hne : message.ID ≠ id := habsent message (List.mem_cons_self _ _)
    have hrest := ih (fun other hother => habsent other (List.mem_cons_of_mem _ hother))
    simp [firstIndexWithID, hne, hrest]

theorem firstIndexWithID_first (id : String) (before : List Message) (target : Message)
    (after : List Message) (htarget : target.ID = id)
    (hbefore : ∀ message ∈ before, message.ID ≠ id) :
    firstIndexWithID id (before ++ target :: after) = some before.length := by
  induction before with
  | nil => simp [firstIndexWithID, htarget]
  | cons message rest ih =>
    have hne : message.ID ≠ id := hbefore message (List.mem_cons_self _ _)
    have hrest := ih (fun other hother => hbefore other (List.mem_cons_of_mem _ hother))
    simp [firstIndexWithID, hne, hrest]

theorem overwriteContent_absent (messageEdited : Message) (shown : List Message)
    (habsent : ∀ message ∈ shown, message.ID ≠ messageEdited.ID) :
    overwriteContent messageEdited shown = none := by
  induction shown with
  | nil => rfl
  | cons message rest ih =>
    have hne : message.ID ≠ messageEdited.ID := habsent message (List.mem_cons_self _ _)
    have hrest := ih (fun other hother => habsent other (List.mem_cons_of_mem _ hother))
    simp [overwriteContent, hne, hrest]

theorem overwriteContent_first (messageEdited : Message) (before : List Message)
    (target : Message) (after : List Message) (htarget : target.ID = messageEdited.ID)
    (hbefore : ∀ message ∈ before, message.ID ≠ messageEdited.ID) :
    overwriteContent messageEdited (before ++ target :: after) =
      some (before ++ { target with Content := messageEdited.Content } :: after) := by
  induction before with
  | nil => simp [overwriteContent, htarget]
  | cons message rest ih =>
    have hne : message.ID ≠ messageEdited.ID := hbefore message (List.mem_cons_self _ _)
    have hrest := ih (fun other hother => hbefore other (List.mem_cons_of_mem _ hother))
    simp [overwriteContent, hne, hrest]

theorem replaceSlot_absent (updatedMessage : Message) (shown : List Message)
    (habsent : ∀ msg ∈ shown, msg.ID ≠ updatedMessage.ID) :
    replaceSlot updatedMessage shown = shown := by
  induction shown with
  | nil => rfl
  | cons msg rest ih =>
    have hne : msg.ID ≠ updatedMessage.ID := habsent msg (List.mem_cons_self _ _)
    have hrest := ih (fun other hother => habsent other (List.mem_cons_of_mem _ hother))
    simp [replaceSlot, hne, hrest]

theorem replaceSlot_first (updatedMessage : Message) (before : List Message)
    (target : Message) (after : List Message) (htarget : target.ID = updatedMessage.ID)
    (hbefore : ∀ msg ∈ before, msg.ID ≠ updatedMessage.ID) :
    replaceSlot updatedMessage (before ++ target :: after) =
      before ++ updatedMessage :: after := by
  induction before with
  | nil => simp [replaceSlot, htarget]
  | cons msg rest ih =>
    have hne : msg.ID ≠ updatedMessage.ID := hbefore msg (List.mem_cons_self _ _)
    have hrest := ih (fun other hother => hbefore other (List.mem_cons_of_mem _ hother))
    simp [replaceSlot, hne, hrest]

/-! ### The event consumers, one event at a time -/

/-- C4: the delete consumer, followed by the update it queued.  With no entry
of the deleted identifier nothing is queued (no render is requested) and the
window is unchanged; otherwise the first entry with that identifier is removed
and every other entry stays, in its order. -/
theorem deleted_removes_first_match (env : Session) (window : Window)
    (messageDeleted : Message) :
    ((∀ message ∈ window.shownMessages, message.ID ≠ messageDeleted.ID) →
      (deleteConsumer window messageDeleted).queued = [] ∧
      (deleteConsumer window messageDeleted).window = window ∧
      (deleteConsumer window messageDeleted).settle env = .ok window) ∧
    (∀ before target after,
      window.shownMessages = before ++ target :: after →
      target.ID = messageDeleted.ID →
      (∀ message ∈ before, message.ID ≠ messageDeleted.ID) →
      (deleteConsumer window messageDeleted).queued ≠ [] ∧
      (deleteConsumer window messageDeleted).window = window ∧
      (deleteConsumer window messageDeleted).settle env =
        .ok { window with shownMessages := before ++ after }) := by
  constructor
  · intro habsent
    have h := firstIndexWithID_absent messageDeleted.ID window.shownMessages habsent
    simp [deleteConsumer, h, Handled.settle, runUpdates]
  · intro before target after hshown htarget hbefore
    have h := firstIndexWithID_first messageDeleted.ID before target after htarget hbefore
    rw [← hshown] at h
    have hhandled : deleteConsumer window messageDeleted =
        { window := window
          queued := [Update.removeShownAt before.length]
          notifications := []
          cacheOps := [CacheOp.MessageRemove messageDeleted] } := by
      unfold deleteConsumer
      rw [h]
    rw [hhandled]
    simp [Handled.settle, runUpdates, Update.run, Window.SetMessages, hshown]

/-- C4 at a concrete input: deleting "b" from the visible sequence a, b, c, b. -/
theorem deleted_removes_first_match_witness :
    (deleteConsumer
        (sampleWindow [sampleMessage "a" "general" "1" sampleFriend,
          sampleMessage "b" "general" "2" sampleFriend,
          sampleMessage "c" "general" "3" sampleFriend,
          sampleMessage "b" "general" "3" sampleSelf])
        (sampleMessage "b" "general" "" sampleFriend)).settle sampleSession =
      .ok (sampleWindow [sampleMessage "a" "general" "1" sampleFriend,
          sampleMessage "c" "general" "3" sampleFriend,
          sampleMessage "b" "general" "3" sampleSelf]) :=
  ((deleted_removes_first_match sampleSession
      (sampleWindow [sampleMessage "a" "general" "1" sampleFriend,
        sampleMessage "b" "general" "2" sampleFriend,
        sampleMessage "c" "general" "3" sampleFriend,
        sampleMessage "b" "general" "3" sampleSelf])
      (sampleMessage "b" "general" "" sampleFriend)).2
    [sampleMessage "a" "general" "1" sampleFriend]
    (sampleMessage "b" "general" "2" sampleFriend)
    [sampleMessage "c" "general" "3" sampleFriend, sampleMessage "b" "general" "3" sampleSelf]
    rfl rfl (by decide)).2.2

/-- C5: the update consumer, followed by the redraw it queued.  With an entry
of the edited identifier, the visible sequence keeps its length and order, the
first such entry takes the new body and keeps identifier, channel id, author,
timestamp and mentions, and every other entry is unchanged; with no such entry
the window is unchanged, nothing is queued and nothing faults. -/
theorem updated_overwrites_first_match (env : Session) (window : Window)
    (messageEdited : Message) :
    ((∀ message ∈ window.shownMessages, message.ID ≠ messageEdited.ID) →
      (updateConsumer window messageEdited).queued = [] ∧
      (updateConsumer window messageEdited).settle env = .ok window) ∧
    (∀ before target after,
      window.shownMessages = before ++ target :: after →
      target.ID = messageEdited.ID →
      (∀ message ∈ before, message.ID ≠ messageEdited.ID) →
      ∃ updated final,
        (updateConsumer window messageEdited).settle env = .ok final ∧
        final = { window with shownMessages := before ++ updated :: after } ∧
        final.shownMessages.length = window.shownMessages.length ∧
        updated.Content = messageEdited.Content ∧
        updated.ID = target.ID ∧ updated.ChannelID = target.ChannelID ∧
        updated.Author = target.Author ∧ updated.Timestamp = target.Timestamp ∧
        updated.Mentions = target.Mentions) := by
  constructor
  · intro habsent
    have h := overwriteContent_absent messageEdited window.shownMessages habsent
    have hhandled : updateConsumer window messageEdited =
        { window := window
          queued := []
          notifications := []
          cacheOps := [CacheOp.MessageAdd messageEdited] } := by
      unfold updateConsumer
      rw [h]
    rw [hhandled]
    exact ⟨rfl, rfl⟩
  · intro before target after hshown htarget hbefore
    have h := overwriteContent_first messageEdited before target after htarget hbefore
    rw [← hshown] at h
    have hhandled : updateConsumer window messageEdited =
        { window := { window with
                        shownMessages :=
                          before ++ { target with Content := messageEdited.Content } :: after }
          queued := [Update.redrawShown]
          notifications := []
          cacheOps := [CacheOp.MessageAdd messageEdited] } := by
      unfold updateConsumer
      rw [h]
    rw [hhandled]
    refine ⟨{ target with Content := messageEdited.Content }, _, rfl, rfl, ?_, rfl, rfl, rfl,
      rfl, rfl, rfl⟩
    simp [hshown, Window.SetMessages]

/-- C5 at a concrete input: an edit of "b" in the visible sequence a, b, b. -/
theorem updated_overwrites_first_match_witness :
    ∃ updated final,
      (updateConsumer
          (sampleWindow [sampleMessage "a" "general" "1" sampleFriend,
            sampleMessage "b" "general" "2" sampleFriend,
            sampleMessage "b" "general" "3" sampleSelf])
          { sampleMessage "b" "general" "" sampleFriend with Content := "edited" }).settle
            sampleSession = .ok final ∧
      final = { sampleWindow [sampleMessage "a" "general" "1" sampleFriend,
                  sampleMessage "b" "general" "2" sampleFriend,
                  sampleMessage "b" "general" "3" sampleSelf] with
                shownMessages := [sampleMessage "a" "general" "1" sampleFriend] ++
                  updated :: [sampleMessage "b" "general" "3" sampleSelf] } ∧
      final.shownMessages.length =
        (sampleWindow [sampleMessage "a" "general" "1" sampleFriend,
            sampleMessage "b" "general" "2" sampleFriend,
            sampleMessage "b" "general" "3" sampleSelf]).shownMessages.length ∧
      updated.Content =
        ({ sampleMessage "b" "general" "" sampleFriend with Content := "edited" } :
          Message).Content ∧
      updated.ID = (sampleMessage "b" "general" "2" sampleFriend).ID ∧
      updated.ChannelID = (sampleMessage "b" "general" "2" sampleFriend).ChannelID ∧
      updated.Author = (sampleMessage "b" "general" "2" sampleFriend).Author ∧
      updated.Timestamp = (sampleMessage "b" "general" "2" sampleFriend).Timestamp ∧
      updated.Mentions = (sampleMessage "b" "general" "2" sampleFriend).Mentions :=
  (updated_overwrites_first_match sampleSession
      (sampleWindow [sampleMessage "a" "general" "1" sampleFriend,
        sampleMessage "b" "general" "2" sampleFriend,
        sampleMessage "b" "general" "3" sampleSelf])
      { sampleMessage "b" "general" "" sampleFriend with Content := "edited" }).2
    [sampleMessage "a" "general" "1" sampleFriend]
    (sampleMessage "b" "general" "2" sampleFriend)
    [sampleMessage "b" "general" "3" sampleSelf]
    rfl rfl (by decide)

/-- C6: the create consumer with a channel open, followed by the update it
queued.  A message for another channel leaves the visible sequence as it was;
a message for the open channel is appended at its end.  The consumer itself
writes nothing to the window. -/
theorem created_appends_iff_selected (env : Session) (window : Window) (message : Message)
    (selected : Channel) (hsel : window.selectedChannel = some selected) :
    ∃ handled final,
      createConsumer env window message = .ok handled ∧
      handled.window = window ∧
      handled.settle env = .ok final ∧
      (message.ChannelID ≠ selected.ID → final.shownMessages = window.shownMessages) ∧
      (message.ChannelID = selected.ID →
        final.shownMessages = window.shownMessages ++ [message]) := by
  have hmark : ∀ mentionsYou : Bool,
      runUpdates env [Update.markChannel message mentionsYou] window =
        .ok { window with
                channelNodes :=
                  window.channelNodes.map (markNode env selected message mentionsYou) } := by
    intro mentionsYou
    simp [runUpdates, Update.run, hsel]
  by_cases h1 : message.ChannelID = selected.ID
  · have hc : createConsumer env window message =
        .ok { window := window
              queued := [Update.addMessages [message]]
              notifications := []
              cacheOps := [CacheOp.MessageAdd message] } := by
      unfold createConsumer
      rw [hsel]
      simp [h1]
    exact ⟨_, _, hc, rfl, rfl, fun h => absurd h1 h, fun _ => rfl⟩
  · by_cases h2 : message.Author.ID = env.userID
    · have hc : createConsumer env window message =
          .ok { window := window
                queued := []
                notifications := []
                cacheOps := [CacheOp.MessageAdd message] } := by
        unfold createConsumer
        rw [hsel]
        simp [h1, h2]
      exact ⟨_, _, hc, rfl, rfl, fun _ => rfl, fun h => absurd h h1⟩
    · cases hch : env.stateChannel message.ChannelID with
      | none =>
        have hc : createConsumer env window message =
            .ok { window := window
                  queued := [Update.markChannel message
                    (message.Mentions.any (fun user => user.ID == env.userID))]
                  notifications := []
                  cacheOps := [CacheOp.MessageAdd message] } := by
          unfold createConsumer
          rw [hsel]
          simp [h1, h2, hch]
        exact ⟨_, _, hc, rfl, hmark _, fun _ => rfl, fun h => absurd h h1⟩
      | some channel =>
        have hc : ∃ notifications, createConsumer env window message =
            .ok { window := window
                  queued := [Update.markChannel message
                    (message.Mentions.any (fun user => user.ID == env.userID) ||
                      (channel.Typ == ChannelType.DM || channel.Typ == ChannelType.GroupDM))]
                  notifications := notifications
                  cacheOps := [CacheOp.MessageAdd message] } := by
          unfold createConsumer
          rw [hsel]
          simp [h1, h2, hch]
        obtain ⟨notifications, hc⟩ := hc
        exact ⟨_, _, hc, rfl, hmark _, fun _ => rfl, fun h => absurd h h1⟩

/-! ### Guild selection and the refresh goroutines -/

theorem selectSettled_tidy (supervisor : Supervisor) (guild : String) (channelsFetched : Bool)
    (htidy : supervisor.Tidy) :
    ∃ after, supervisor.selectSettled (guild, channelsFetched) = .next after ∧
      after.Tidy ∧ after.selectedGuild = some guild ∧
      (channelsFetched = true → ∃ chan,
        after.tasks = [{ guild := guild, phase := TaskPhase.waiting chan }] ∧
        after.killCurrentGuildUpdateThread = some chan) ∧
      (channelsFetched = false →
        after.tasks = [] ∧ after.killCurrentGuildUpdateThread = none) ∧
      (supervisor.tasks = [] → after.signals = supervisor.signals) ∧
      (∀ bound chan,
        supervisor.tasks = [{ guild := bound, phase := TaskPhase.waiting chan }] →
        after.signals = supervisor.signals ++ [chan]) := by
  obtain ⟨kill, selected, tasks, nextChan, signals⟩ := supervisor
  rcases htidy with ⟨htasks, hkill⟩ | ⟨bound, chan, htasks, hkill, _⟩
  · simp only at htasks hkill
    subst htasks hkill
    cases channelsFetched
    · refine ⟨_, rfl, Or.inl ⟨rfl, rfl⟩, rfl, ?_, ?_, ?_, ?_⟩ <;> simp
    · refine ⟨_, rfl, Or.inr ⟨guild, nextChan, rfl, rfl, rfl⟩, rfl, ?_, ?_, ?_, ?_⟩ <;>
        simp
  · simp only at htasks hkill
    subst htasks hkill
    cases channelsFetched
    · refine ⟨{ killCurrentGuildUpdateThread := none, selectedGuild := some guild, tasks := [],
                nextChan := nextChan, signals := signals ++ [chan] }, ?_,
        Or.inl ⟨rfl, rfl⟩, rfl, ?_, ?_, ?_, ?_⟩
      · simp [Supervisor.selectSettled, Supervisor.selectGuild, deliverStop, Supervisor.settle,
          firstUnsettled, Supervisor.taskStep]
      all_goals simp
    · refine ⟨{ killCurrentGuildUpdateThread := some nextChan, selectedGuild := some guild,
                tasks := [{ guild := guild, phase := TaskPhase.waiting nextChan }],
                nextChan := nextChan + 1, signals := signals ++ [chan] }, ?_,
        Or.inr ⟨guild, nextChan, rfl, rfl, rfl⟩, rfl, ?_, ?_, ?_, ?_⟩
      · simp [Supervisor.selectSettled, Supervisor.selectGuild, deliverStop, Supervisor.settle,
          firstUnsettled, Supervisor.taskStep, enterSelect]
      all_goals simp

theorem selectAll_tidy (selections : List (String × Bool)) (supervisor : Supervisor)
    (htidy : supervisor.Tidy) :
    ∃ after, supervisor.selectAll selections = .next after ∧ after.Tidy := by
  induction selections generalizing supervisor with
  | nil => exact ⟨supervisor, rfl, htidy⟩
  | cons selection rest ih =>
    obtain ⟨following, hstep, hfollowing, _⟩ :=
      selectSettled_tidy supervisor selection.1 selection.2 htidy
    obtain ⟨after, hafter, hafterTidy⟩ := ih following hfollowing
    refine ⟨after, ?_, hafterTidy⟩
    simp only [Supervisor.selectAll]
    rw [show selection = (selection.1, selection.2) from rfl, hstep]
    exact hafter

theorem tidy_length_le_one (supervisor : Supervisor) (htidy : supervisor.Tidy) :
    supervisor.tasks.length ≤ 1 := by
  rcases htidy with ⟨htasks, _⟩ | ⟨_, _, htasks, _, _⟩ <;> simp [htasks]

/-- C9, as the code has it when the goroutines settle between selections (a
stopped goroutine returns and a started one registers its channel before the
next guild is selected): after any sequence of guild selections and one more,
at most one refresh goroutine is outstanding before and after; if the channel
fetch of the newly selected guild succeeded there is exactly one, bound to
that guild and registered, and if it failed there is none; no goroutine of the
guild selected before remains; and a stop signal is sent exactly when a
goroutine was registered, on its channel. -/
theorem selections_keep_one_refresh_task (selections : List (String × Bool))
    (guild : String) (channelsFetched : Bool) :
    ∃ before after,
      Supervisor.initial.selectAll selections = .next before ∧
      before.selectSettled (guild, channelsFetched) = .next after ∧
      before.tasks.length ≤ 1 ∧ after.tasks.length ≤ 1 ∧
      after.selectedGuild = some guild ∧
      (channelsFetched = true → ∃ chan,
        after.tasks = [{ guild := guild, phase := TaskPhase.waiting chan }] ∧
        after.killCurrentGuildUpdateThread = some chan) ∧
      (channelsFetched = false →
        after.tasks = [] ∧ after.killCurrentGuildUpdateThread = none) ∧
      (before.tasks = [] →
        before.killCurrentGuildUpdateThread = none ∧ after.signals = before.signals) ∧
      (∀ bound chan,
        before.tasks = [{ guild := bound, phase := TaskPhase.waiting chan }] →
        before.killCurrentGuildUpdateThread = some chan ∧
        after.signals = before.signals ++ [chan]) := by
  obtain ⟨before, hbefore, hbeforeTidy⟩ :=
    selectAll_tidy selections Supervisor.initial (Or.inl ⟨rfl, rfl⟩)
  obtain ⟨after, hafter, hafterTidy, hselected, hfetched, hfailed, hquiet, hsignal⟩ :=
    selectSettled_tidy before guild channelsFetched hbeforeTidy
  refine ⟨before, after, hbefore, hafter, tidy_length_le_one before hbeforeTidy,
    tidy_length_le_one after hafterTidy, hselected, hfetched, hfailed, ?_, ?_⟩
  · intro hnone
    refine ⟨?_, hquiet hnone⟩
    rcases hbeforeTidy with ⟨_, hkill⟩ | ⟨_, _, htasks, _, _⟩
    · exact hkill
    · rw [hnone] at htasks; cases htasks
  · intro bound chan htasks
    refine ⟨?_, hsignal bound chan htasks⟩
    rcases hbeforeTidy with ⟨hnone, _⟩ | ⟨_, _, htasks2, hkill, _⟩
    · rw [hnone] at htasks; cases htasks
    · rw [htasks] at htasks2
      cases htasks2
      exact hkill

/-- C9 at a concrete input: guild "G1" is selected, then guild "G2", both
channel fetches succeeding. -/
theorem selections_keep_one_refresh_task_witness :
    ∃ before after,
      Supervisor.initial.selectAll [("G1", true)] = .next before ∧
      before.selectSettled ("G2", true) = .next after ∧
      before.tasks.length ≤ 1 ∧ after.tasks.length ≤ 1 ∧
      after.selectedGuild = some "G2" ∧
      (true = true → ∃ chan,
        after.tasks = [{ guild := "G2", phase := TaskPhase.waiting chan }] ∧
        after.killCurrentGuildUpdateThread = some chan) ∧
      (true = false →
        after.tasks = [] ∧ after.killCurrentGuildUpdateThread = none) ∧
      (before.tasks = [] →
        before.killCurrentGuildUpdateThread = none ∧ after.signals = before.signals) ∧
      (∀ bound chan,
        before.tasks = [{ guild := bound, phase := TaskPhase.waiting chan }] →
        before.killCurrentGuildUpdateThread = some chan ∧
        after.signals = before.signals ++ [chan]) :=
  selections_keep_one_refresh_task [("G1", true)] "G2" true

/-- The two selections of the sample, evaluated: the goroutine of "G1" is
stopped on its channel 0 and the only one left is that of "G2". -/
theorem select_two_guilds_evaluated :
    Supervisor.initial.selectAll [("G1", true), ("G2", true)] =
      .next { killCurrentGuildUpdateThread := some 1
              selectedGuild := some "G2"
              tasks := [{ guild := "G2", phase := TaskPhase.waiting 1 }]
              nextChan := 2
              signals := [0] } := by
  decide

/-- C9 fails as stated: guild "G1" is selected and its goroutine settles, then
guild "G2" is selected and its channel fetch fails.  The handler stops the
goroutine of "G1" and returns before starting one for "G2": no refresh task
exists, where the claim has exactly one bound to "G2". -/
theorem no_refresh_task_after_failed_fetch :
    Supervisor.initial.selectAll [("G1", true), ("G2", false)] =
      .next { killCurrentGuildUpdateThread := none
              selectedGuild := some "G2"
              tasks := []
              nextChan := 1
              signals := [0] } := by
  decide

/-- The schedule that the settled reading leaves out: "G2" is selected before
the goroutine of "G1" has stored its channel, so the handler finds the field
nil, sends no stop signal, and two refresh goroutines end up blocked in
`select`, one of them bound to "G1". -/
theorem refresh_tasks_overlap_when_selection_races :
    Supervisor.initial.run
        [RefreshStep.select "G1" true, RefreshStep.select "G2" true,
         RefreshStep.task 0, RefreshStep.task 0, RefreshStep.task 1, RefreshStep.task 1] =
      .next { killCurrentGuildUpdateThread := some 1
              selectedGuild := some "G2"
              tasks := [{ guild := "G1", phase := TaskPhase.waiting 0 },
                        { guild := "G2", phase := TaskPhase.waiting 1 }]
              nextChan := 2
              signals := [] } := by
  decide

/-! ### Further single events -/

/-- C6 at a concrete input: a message for the open channel is appended. -/
theorem created_appends_iff_selected_witness :
    (sampleWindow []).selectedChannel = some sampleGeneral ∧
    ∃ handled final,
      createConsumer sampleSession (sampleWindow []) sampleGreeting = .ok handled ∧
      handled.window = sampleWindow [] ∧
      handled.settle sampleSession = .ok final ∧
      (sampleGreeting.ChannelID ≠ sampleGeneral.ID →
        final.shownMessages = (sampleWindow []).shownMessages) ∧
      (sampleGreeting.ChannelID = sampleGeneral.ID →
        final.shownMessages = (sampleWindow []).shownMessages ++ [sampleGreeting]) :=
  ⟨rfl, created_appends_iff_selected sampleSession (sampleWindow []) sampleGreeting
    sampleGeneral rfl⟩

/-- C7: `editMessage` run to its end.  When the remote call fails the visible
sequence is as before.  When it succeeds with an updated message: with no
entry of its identifier the visible sequence is as before; otherwise exactly
the first entry with that identifier is replaced by the updated message and
every other entry stays in place.  Nothing faults. -/
theorem editMessage_replaces_first_match (env : Session) (window : Window)
    (result : Except String Message) :
    (∀ reason, result = .error reason →
      ∃ final, window.editMessage env result = .ok final ∧
        final.shownMessages = window.shownMessages) ∧
    (∀ updatedMessage, result = .ok updatedMessage →
      ((∀ msg ∈ window.shownMessages, msg.ID ≠ updatedMessage.ID) →
        ∃ final, window.editMessage env result = .ok final ∧
          final.shownMessages = window.shownMessages) ∧
      (∀ before target after,
        window.shownMessages = before ++ target :: after →
        target.ID = updatedMessage.ID →
        (∀ msg ∈ before, msg.ID ≠ updatedMessage.ID) →
        ∃ final, window.editMessage env result = .ok final ∧
          final.shownMessages = before ++ updatedMessage :: after ∧
          final.shownMessages.length = window.shownMessages.length)) := by
  refine ⟨?_, ?_⟩
  · intro reason hresult
    subst hresult
    exact ⟨_, rfl, rfl⟩
  · intro updatedMessage hresult
    subst hresult
    have hrun : window.editMessage env (.ok updatedMessage) =
        .ok { window.exitMessageEditMode with
                shownMessages := replaceSlot updatedMessage window.shownMessages } := rfl
    refine ⟨?_, ?_⟩
    · intro habsent
      refine ⟨_, hrun, ?_⟩
      exact replaceSlot_absent updatedMessage window.shownMessages habsent
    · intro before target after hshown htarget hbefore
      have hslot := replaceSlot_first updatedMessage before target after htarget hbefore
      rw [← hshown] at hslot
      refine ⟨_, hrun, hslot, ?_⟩
      show (replaceSlot updatedMessage window.shownMessages).length = _
      rw [hslot, hshown]
      simp

/-- C7 at a concrete input: the edit of "b" succeeds while a, b, b is shown. -/
theorem editMessage_replaces_first_match_witness :
    ∃ final,
      (sampleWindow [sampleMessage "a" "general" "1" sampleFriend,
          sampleMessage "b" "general" "2" sampleSelf,
          sampleMessage "b" "general" "3" sampleSelf]).editMessage sampleSession
        (.ok { sampleMessage "b" "general" "2" sampleSelf with Content := "edited" })
          = .ok final ∧
      final.shownMessages =
        [sampleMessage "a" "general" "1" sampleFriend] ++
          { sampleMessage "b" "general" "2" sampleSelf with Content := "edited" } ::
            [sampleMessage "b" "general" "3" sampleSelf] ∧
      final.shownMessages.length =
        (sampleWindow [sampleMessage "a" "general" "1" sampleFriend,
          sampleMessage "b" "general" "2" sampleSelf,
          sampleMessage "b" "general" "3" sampleSelf]).shownMessages.length :=
  ((editMessage_replaces_first_match sampleSession
      (sampleWindow [sampleMessage "a" "general" "1" sampleFriend,
        sampleMessage "b" "general" "2" sampleSelf,
        sampleMessage "b" "general" "3" sampleSelf])
      (.ok { sampleMessage "b" "general" "2" sampleSelf with Content := "edited" })).2
    { sampleMessage "b" "general" "2" sampleSelf with Content := "edited" } rfl).2
    [sampleMessage "a" "general" "1" sampleFriend]
    (sampleMessage "b" "general" "2" sampleSelf)
    [sampleMessage "b" "general" "3" sampleSelf]
    rfl rfl (by decide)

/-! ### Interleavings around a Created event -/

/-- C8, evaluated on the code: with `sampleGeneral` open, a message for it is
received by the handler and taken by the create consumer, which queues the
append; the user then selects `sampleRandom`; the queued append runs after
that.  When it is applied the selection is `sampleRandom`, the message belongs
to `sampleGeneral`, and it ends up in the visible sequence of
`sampleRandom`. -/
theorem created_appended_after_selection_moved :
    ∃ pending final,
      sampleSystem.run sampleSession
        [Step.messageCreate sampleGreeting, Step.consumeCreate,
         Step.loadChannel sampleRandom] = .next pending ∧
      pending.updates = [Update.addMessages [sampleGreeting]] ∧
      pending.window.selectedChannel = some sampleRandom ∧
      pending.window.shownMessages = [] ∧
      pending.step sampleSession Step.runUpdate = .next final ∧
      final.window.selectedChannel = some sampleRandom ∧
      final.window.shownMessages = [sampleGreeting] ∧
      sampleGreeting.ChannelID ≠ sampleRandom.ID :=
  ⟨{ window := { sampleWindow [] with
                   selectedChannel := some sampleRandom, channelTitle := "random" }
     messageInputChan := []
     updates := [Update.addMessages [sampleGreeting]]
     notifications := [] },
   { window := { sampleWindow [sampleGreeting] with
                   selectedChannel := some sampleRandom, channelTitle := "random" }
     messageInputChan := []
     updates := []
     notifications := [] },
   by decide, rfl, rfl, rfl, by decide, rfl, rfl, by decide⟩

theorem createConsumer_window (env : Session) (window : Window) (message : Message)
    (handled : Handled) (hok : createConsumer env window message = .ok handled) :
    handled.window = window := by
  unfold createConsumer at hok
  split at hok
  · cases hok
  · split at hok
    · cases hok; rfl
    · split at hok
      · split at hok <;> (cases hok; rfl)
      · cases hok; rfl

theorem createConsumer_ok_of_selected (env : Session) (window : Window) (message : Message)
    (selected : Channel) (hsel : window.selectedChannel = some selected) :
    ∃ handled, createConsumer env window message = .ok handled := by
  unfold createConsumer
  rw [hsel]
  simp only
  split
  · exact ⟨_, rfl⟩
  · split
    · split <;> exact ⟨_, rfl⟩
    · exact ⟨_, rfl⟩

theorem Update.run_selectedChannel (env : Session) (update : Update) (window after : Window)
    (hok : update.run env window = .ok after) :
    after.selectedChannel = window.selectedChannel := by
  cases update with
  | addMessages messages => cases hok; rfl
  | markChannel message mentionsYou =>
    simp only [Update.run] at hok
    split at hok
    · cases hok; rfl
    · split at hok
      · cases hok
      · cases hok; rfl
  | removeShownAt index =>
    simp only [Update.run] at hok
    split at hok
    · cases hok; rfl
    · cases hok
  | redrawShown => cases hok; rfl

theorem LoadChannel_selectedChannel (env : Session) (window after : Window) (channel : Channel)
    (hok : window.LoadChannel env channel = .ok after) :
    after.selectedChannel = some channel := by
  unfold Window.LoadChannel at hok
  split at hok
  · cases hok
  · cases hok; rfl

theorem step_keeps_selection_for_pending (env : Session) (system following : System)
    (step : Step)
    (hinv : system.messageInputChan ≠ [] → system.window.selectedChannel ≠ none)
    (hstep : system.step env step = .next following) :
    following.messageInputChan ≠ [] → following.window.selectedChannel ≠ none := by
  cases step with
  | messageCreate m =>
    simp only [System.step, onMessageCreate] at hstep
    cases hsel : system.window.selectedChannel with
    | none =>
      rw [hsel] at hstep
      simp only at hstep
      cases hstep
      intro hpending
      exact absurd hsel (hinv hpending)
    | some selected =>
      rw [hsel] at hstep
      simp only at hstep
      split at hstep
      · cases hstep
        intro _
        simp [hsel]
      · cases hstep
  | consumeCreate =>
    simp only [System.step] at hstep
    split at hstep
    · cases hstep
    · rename_i message rest hchan
      split at hstep
      · cases hstep
      · rename_i handled hhandled
        cases hstep
        intro _
        simp only
        rw [createConsumer_window env _ _ _ hhandled]
        exact hinv (by rw [hchan]; simp)
  | loadChannel channel =>
    simp only [System.step] at hstep
    split at hstep
    · cases hstep
    · rename_i window hload
      cases hstep
      intro _
      simp [LoadChannel_selectedChannel env _ _ _ hload]
  | runUpdate =>
    simp only [System.step] at hstep
    split at hstep
    · cases hstep
    · split at hstep
      · cases hstep
      · rename_i window hrun
        cases hstep
        intro hpending
        simp only
        rw [Update.run_selectedChannel env _ _ _ hrun]
        exact hinv hpending

/-- Under every schedule from a state whose Created queue is empty or whose
window has a channel open, a Created event waits in the queue only while a
channel is open; so the create consumer never meets a nil selection. -/
theorem pending_created_event_has_selection (env : Session) (steps : List Step)
    (system final : System)
    (hinv : system.messageInputChan ≠ [] → system.window.selectedChannel ≠ none)
    (hrun : system.run env steps = .next final) :
    (final.messageInputChan ≠ [] → final.window.selectedChannel ≠ none) ∧
    final.step env Step.consumeCreate ≠ .fault Fault.nilDereference := by
  induction steps generalizing system with
  | nil =>
    cases hrun
    refine ⟨hinv, ?_⟩
    simp only [System.step]
    cases hchan : final.messageInputChan with
    | nil => simp
    | cons message rest =>
      have hsel := hinv (by rw [hchan]; simp)
      cases hselected : final.window.selectedChannel with
      | none => exact absurd hselected hsel
      | some selected =>
        obtain ⟨handled, hhandled⟩ :=
          createConsumer_ok_of_selected env final.window message selected hselected
        simp [hhandled]
  | cons step rest ih =>
    simp only [System.run] at hrun
    split at hrun
    · rename_i following hstep
      exact ih following (step_keeps_selection_for_pending env system following step hinv hstep)
        hrun
    · cases hrun
    · cases hrun

/-! ### The Created producer -/

/-- C10, as the code has it: the `MessageCreate` handler puts the message on
the Created queue exactly when some channel is selected, whatever channel the
message belongs to; with no channel selected the queue is left as it was.
With a channel selected and the queue full, the handler blocks. -/
theorem messageCreate_enqueues_iff_selected (window : Window)
    (messageInputChan : List Message) (m : Message) :
    (window.selectedChannel = none →
      onMessageCreate window messageInputChan m = some messageInputChan) ∧
    (window.selectedChannel ≠ none → messageInputChan.length < eventChanCapacity →
      onMessageCreate window messageInputChan m = some (messageInputChan ++ [m])) ∧
    (window.selectedChannel ≠ none → eventChanCapacity ≤ messageInputChan.length →
      onMessageCreate window messageInputChan m = none) := by
  unfold onMessageCreate chanSend
  cases hsel : window.selectedChannel with
  | none => simp
  | some selected =>
    refine ⟨fun h => ?_, fun _ hroom => ?_, fun _ hfull => ?_⟩
    · cases h
    · simp [hroom]
    · simp [Nat.not_lt.2 hfull]

/-- C10, amended, at a concrete input: a message for `sampleRandom` arrives
while `sampleGeneral` is open and the queue is empty. -/
theorem messageCreate_enqueues_iff_selected_witness :
    onMessageCreate (sampleWindow []) [] (sampleMessage "11" "random" "1" sampleFriend)
      = some ([] ++ [sampleMessage "11" "random" "1" sampleFriend]) :=
  (messageCreate_enqueues_iff_selected (sampleWindow []) []
    (sampleMessage "11" "random" "1" sampleFriend)).2.1 (by decide) (by decide)

/-- C10 fails as stated: with no channel selected the handler drops the
Created event; the queue stays empty. -/
theorem messageCreate_dropped_without_selection :
    onMessageCreate sampleIdleWindow [] sampleGreeting = some [] ∧
    sampleGreeting ∉ ([] : List Message) := by
  decide

/-! ### Errors and faults of LoadChannel -/

theorem LoadChannelReturn_error_is_nil (env : Session) (window : Window) (channel : Channel)
    (discordError : Option String) (loaded : Window)
    (hok : window.LoadChannelReturn env channel = .ok (discordError, loaded)) :
    discordError = none := by
  unfold Window.LoadChannelReturn at hok
  split at hok
  · cases hok
  · cases hok; rfl

theorem LoadChannel_failed_fetch (env : Session) (window : Window) (channel : Channel)
    (messages : List Message) (reason : String)
    (hlast : channel.LastMessageID ≠ "") (hinline : channel.Messages = [])
    (hcache : ∀ cache, env.stateChannel channel.ID = some cache → cache.Messages = [])
    (hfetch : env.channelMessages channel.ID = (messages, some reason)) :
    window.LoadChannelReturn env channel =
      .ok (none, loadResolved env window channel messages) := by
  have hres : resolveMessages env channel =
      .ok (messages, [CacheOp.RemoteFetch channel.ID]) := by
    unfold resolveMessages
    rw [if_pos ⟨hlast, by simp [hinline]⟩]
    cases hlookup : env.stateChannel channel.ID with
    | none => simp [hfetch]
    | some cache => simp [hcache cache hlookup, hfetch]
  simp [Window.LoadChannelReturn, Window.LoadChannel, hres]

/-- C11, evaluated on the code: the channel has a last message, no inline
history and an empty cache entry, and the remote fetch fails.  `LoadChannel`
returns `nil`, shows an empty sequence and selects the channel; the handler of
the channel node therefore shows no error dialog. -/
theorem loadChannel_swallows_fetch_error :
    sampleOfflineSession.channelMessages sampleUnloaded.ID = ([], some "request failed") ∧
    (sampleWindow [sampleGreeting]).LoadChannelReturn sampleOfflineSession sampleUnloaded =
      .ok (none, { sampleWindow [] with
                     selectedChannel := some sampleUnloaded, channelTitle := "random" }) ∧
    channelNodeShowsError sampleOfflineSession (sampleWindow [sampleGreeting]) sampleUnloaded =
      .ok false :=
  ⟨rfl, rfl, rfl⟩

theorem LoadChannel_nil_cache_fault (env : Session) (window : Window) (channel : Channel)
    (messages : List Message)
    (hlast : channel.LastMessageID ≠ "") (hinline : channel.Messages = [])
    (hcache : env.stateChannel channel.ID = none)
    (hfetch : env.channelMessages channel.ID = (messages, none)) :
    window.LoadChannel env channel = .error Fault.nilDereference := by
  have hres : resolveMessages env channel = .error Fault.nilDereference := by
    unfold resolveMessages
    rw [if_pos ⟨hlast, by simp [hinline]⟩]
    simp [hcache, hfetch]
  simp [Window.LoadChannel, hres]

theorem LoadChannel_cache_first (env : Session) (window : Window) (channel cache : Channel)
    (hlast : channel.LastMessageID ≠ "") (hinline : channel.Messages = [])
    (hcache : env.stateChannel channel.ID = some cache) :
    (cache.Messages ≠ [] →
      resolveMessages env channel = .ok (cache.Messages, []) ∧
      window.LoadChannel env channel =
        .ok (loadResolved env window channel cache.Messages)) ∧
    (cache.Messages = [] → ∀ messages, env.channelMessages channel.ID = (messages, none) →
      resolveMessages env channel =
        .ok (messages, [CacheOp.RemoteFetch channel.ID,
                        CacheOp.AppendMessages channel.ID messages]) ∧
      window.LoadChannel env channel = .ok (loadResolved env window channel messages)) := by
  constructor
  · intro hfull
    have hres : resolveMessages env channel = .ok (cache.Messages, []) := by
      unfold resolveMessages
      rw [if_pos ⟨hlast, by simp [hinline]⟩]
      simp [hcache, hfull]
    exact ⟨hres, by simp [Window.LoadChannel, hres]⟩
  · intro hempty messages hfetch
    have hres : resolveMessages env channel =
        .ok (messages, [CacheOp.RemoteFetch channel.ID,
                        CacheOp.AppendMessages channel.ID messages]) := by
      unfold resolveMessages
      rw [if_pos ⟨hlast, by simp [hinline]⟩]
      simp [hcache, hempty, hfetch]
    exact ⟨hres, by simp [Window.LoadChannel, hres]⟩

/-- C12, evaluated on the code: the channel has a last message and no inline
history, the cache lookup fails and the remote fetch succeeds with one
message.  `LoadChannel` faults on the write through the nil cache pointer: it
does not complete, and neither the visible sequence nor the selection is
swapped. -/
theorem loadChannel_faults_on_cache_miss :
    sampleDirect.LastMessageID ≠ "" ∧ sampleDirect.Messages = [] ∧
    sampleOnlineSession.stateChannel sampleDirect.ID = none ∧
    sampleOnlineSession.channelMessages sampleDirect.ID =
      ([sampleMessage "7" "dm-1" "1" sampleFriend], none) ∧
    (sampleWindow []).LoadChannel sampleOnlineSession sampleDirect =
      .error Fault.nilDereference :=
  ⟨by decide, rfl, rfl, rfl, rfl⟩

/-! ### Who writes the visible sequence -/

theorem deleteConsumer_window (window : Window) (messageDeleted : Message) :
    (deleteConsumer window messageDeleted).window = window := by
  unfold deleteConsumer
  split <;> rfl

/-- C16, evaluated on the code: with one message shown, the update consumer
has overwritten its content, and the edit goroutine has replaced its slot,
before the update each of them queues has run; the queued update is only the
redraw.  (The create and delete consumers leave the window to their queued
updates.) -/
theorem goroutines_write_shown_messages_directly :
    (updateConsumer (sampleWindow [sampleGreeting])
        { sampleGreeting with Content := "edited" }).window.shownMessages
      = [{ sampleGreeting with Content := "edited" }] ∧
    (updateConsumer (sampleWindow [sampleGreeting])
        { sampleGreeting with Content := "edited" }).queued = [Update.redrawShown] ∧
    (editGoroutine (sampleWindow [sampleGreeting])
        (.ok { sampleGreeting with Content := "edited" })).window.shownMessages
      = [{ sampleGreeting with Content := "edited" }] ∧
    (editGoroutine (sampleWindow [sampleGreeting])
        (.ok { sampleGreeting with Content := "edited" })).queued = [Update.redrawShown] ∧
    (sampleWindow [sampleGreeting]).shownMessages
      ≠ [{ sampleGreeting with Content := "edited" }] := by
  decide

/-! ### Commands -/

theorem splitSpaces_ne_nil (text : List Char) : splitSpaces text ≠ [] := by
  induction text with
  | nil => simp [splitSpaces]
  | cons c rest ih =>
    unfold splitSpaces
    split
    · simp
    · split <;> simp

theorem joinSpaces_splitSpaces (text : List Char) : joinSpaces (splitSpaces text) = text := by
  induction text with
  | nil => rfl
  | cons c rest ih =>
    unfold splitSpaces
    by_cases hc : c = ' '
    · simp only [hc, if_true]
      cases hrest : splitSpaces rest with
      | nil => exact absurd hrest (splitSpaces_ne_nil rest)
      | cons part parts =>
        rw [hrest] at ih
        simp [joinSpaces, ih]
    · simp only [hc, if_false]
      cases hrest : splitSpaces rest with
      | nil => exact absurd hrest (splitSpaces_ne_nil rest)
      | cons part parts =>
        rw [hrest] at ih
        cases parts with
        | nil => simpa [joinSpaces] using ih
        | cons next others =>
          simp only [joinSpaces] at ih ⊢
          simp [ih]

theorem splitSpaces_no_space (text : List Char) :
    ∀ part ∈ splitSpaces text, ' ' ∉ part := by
  induction text with
  | nil => simp [splitSpaces]
  | cons c rest ih =>
    unfold splitSpaces
    by_cases hc : c = ' '
    · simp only [hc, if_true]
      intro part hpart
      rcases List.mem_cons.1 hpart with rfl | hpart
      · simp
      · exact ih part hpart
    · simp only [hc, if_false]
      cases hrest : splitSpaces rest with
      | nil => exact absurd hrest (splitSpaces_ne_nil rest)
      | cons first parts =>
        rw [hrest] at ih
        intro part hpart
        rcases List.mem_cons.1 hpart with rfl | hpart
        · intro hmem
          rcases List.mem_cons.1 hmem with h | h
          · exact hc h.symm
          · exact ih first (List.mem_cons_self _ _) h
        · exact ih part (List.mem_cons_of_mem _ hpart)

/-- C13: `ExecuteCommand` splits the input at its spaces into a first word and
the remaining words (joined by spaces they give the input back, and no word
holds a space; the empty input has the empty first word and no further word).
With a handler stored under the first word, that handler is what is invoked,
once, with the remaining words; after `RegisterCommand` under that word it is
the handler registered last; with none stored, no handler is invoked and one
line naming the word is printed.  In no case does it fault. -/
theorem executeCommand_dispatches {α : Type} (commands : Commands α) (command : String) :
    ∃ name parameters,
      stringsSplit command = name :: parameters ∧
      String.mk (joinSpaces ((name :: parameters).map String.data)) = command ∧
      (∀ part ∈ name :: parameters, ' ' ∉ part.data) ∧
      (command = "" → name = "" ∧ parameters = []) ∧
      (∀ logic, commands name = some logic →
        ExecuteCommand commands command = .ok (CommandEffect.invoked logic parameters)) ∧
      (∀ logic, ExecuteCommand (RegisterCommand commands name logic) command =
        .ok (CommandEffect.invoked logic parameters)) ∧
      (commands name = none →
        ExecuteCommand commands command =
          .ok (CommandEffect.printed ("The command '" ++ name ++ "' doesn't exist\n"))) := by
  cases hsplit : splitSpaces command.data with
  | nil => exact absurd hsplit (splitSpaces_ne_nil _)
  | cons first rest =>
    have hparts : stringsSplit command = String.mk first :: rest.map String.mk := by
      simp [stringsSplit, hsplit]
    refine ⟨String.mk first, rest.map String.mk, hparts, ?_, ?_, ?_, ?_, ?_, ?_⟩
    · have hjoin := joinSpaces_splitSpaces command.data
      rw [hsplit] at hjoin
      have hdata : (String.mk first :: rest.map String.mk).map String.data = first :: rest := by
        simp [List.map_map, Function.comp_def]
      rw [hdata, hjoin]
    · intro part hpart
      have hno := splitSpaces_no_space command.data
      rw [hsplit] at hno
      rcases List.mem_cons.1 hpart with rfl | hpart
      · exact hno first (List.mem_cons_self _ _)
      · obtain ⟨chars, hchars, rfl⟩ := List.mem_map.1 hpart
        exact hno chars (List.mem_cons_of_mem _ hchars)
    · intro hempty
      subst hempty
      have h : splitSpaces "".data = [[]] := rfl
      rw [h] at hsplit
      cases hsplit
      exact ⟨rfl, rfl⟩
    · intro logic hlogic
      simp [ExecuteCommand, hparts, hlogic]
    · intro logic
      simp [ExecuteCommand, hparts, RegisterCommand]
    · intro hnone
      simp [ExecuteCommand, hparts, hnone]

/-- C13 at a concrete input: "say hello  there" with a handler stored under
"say", and "bye" with none. -/
theorem executeCommand_dispatches_witness :
    ExecuteCommand (RegisterCommand (fun _ => none) "say" (7 : Nat)) "say hello  there" =
      .ok (CommandEffect.invoked 7 ["hello", "", "there"]) ∧
    ExecuteCommand (RegisterCommand (fun _ => none) "say" (7 : Nat)) "bye" =
      .ok (CommandEffect.printed "The command 'bye' doesn't exist\n") ∧
    ∃ name parameters,
      stringsSplit "" = name :: parameters ∧
      String.mk (joinSpaces ((name :: parameters).map String.data)) = "" ∧
      (∀ part ∈ name :: parameters, ' ' ∉ part.data) ∧
      ("" = "" → name = "" ∧ parameters = []) ∧
      (∀ logic, (fun _ => none : Commands Nat) name = some logic →
        ExecuteCommand (fun _ => none : Commands Nat) "" =
          .ok (CommandEffect.invoked logic parameters)) ∧
      (∀ logic, ExecuteCommand (RegisterCommand (fun _ => none : Commands Nat) name logic) "" =
        .ok (CommandEffect.invoked logic parameters)) ∧
      ((fun _ => none : Commands Nat) name = none →
        ExecuteCommand (fun _ => none : Commands Nat) "" =
          .ok (CommandEffect.printed ("The command '" ++ name ++ "' doesn't exist\n"))) :=
  ⟨rfl, rfl, executeCommand_dispatches (fun _ => none : Commands Nat) ""⟩

/-! ### The Up key -/

theorem lastOwnFrom_none (userID : String) (shown : List Message) (n : Nat)
    (hnone : ∀ index message, 1 ≤ index → index ≤ n → shown[index]? = some message →
      message.Author.ID ≠ userID) :
    lastOwnFrom userID shown n = none := by
  induction n with
  | zero => rfl
  | succ k ih =>
    have hrec : lastOwnFrom userID shown k = none :=
      ih (fun index message h1 hk => hnone index message h1 (Nat.le_succ_of_le hk))
    unfold lastOwnFrom
    cases hget : shown[k + 1]? with
    | none => simpa using hrec
    | some message =>
      have hne := hnone (k + 1) message (Nat.succ_le_succ (Nat.zero_le k)) (Nat.le_refl _) hget
      simp [hne, hrec]

theorem lastOwnFrom_some (userID : String) (shown : List Message) (n index : Nat)
    (message : Message) (h1 : 1 ≤ index) (hn : index ≤ n)
    (hget : shown[index]? = some message) (hown : message.Author.ID = userID)
    (hlater : ∀ later other, index < later → later ≤ n → shown[later]? = some other →
      other.Author.ID ≠ userID) :
    lastOwnFrom userID shown n = some message := by
  induction n with
  | zero => omega
  | succ k ih =>
    unfold lastOwnFrom
    by_cases hlast : index = k + 1
    · subst hlast
      simp [hget, hown]
    · have hk : index ≤ k := by omega
      have hrec := ih hk (fun later other hlt hle => hlater later other hlt (Nat.le_succ_of_le hle))
      cases hgetk : shown[k + 1]? with
      | none => simpa using hrec
      | some other =>
        have hne := hlater (k + 1) other (by omega) (Nat.le_refl _) hgetk
        simp [hne, hrec]

/-- C17: Up with an empty message input.  If the message at an index from 1 on
is by the current user and no message at a greater index is, the edit target
becomes its identifier (and the input takes its text); if no message at an
index from 1 on is by the current user, the window, and with it the edit
target, is unchanged, whoever wrote the message at index 0. -/
theorem up_targets_last_own_message (env : Session) (prepare : String → String)
    (window : Window) (hempty : window.messageInputText = "") :
    (∀ index message, 1 ≤ index → window.shownMessages[index]? = some message →
      message.Author.ID = env.userID →
      (∀ later other, index < later → window.shownMessages[later]? = some other →
        other.Author.ID ≠ env.userID) →
      (window.inputCapture env prepare Key.Up).window =
        { window with
            messageInputText := env.contentWithMentionsReplaced message
            editingMessageID := some message.ID }) ∧
    ((∀ index message, 1 ≤ index → window.shownMessages[index]? = some message →
        message.Author.ID ≠ env.userID) →
      (window.inputCapture env prepare Key.Up).window = window) := by
  constructor
  · intro index message h1 hget hown hlater
    have hlt : index < window.shownMessages.length := by
      rcases List.getElem?_eq_some.1 hget with ⟨h, _⟩
      exact h
    have hfound := lastOwnFrom_some env.userID window.shownMessages
      (window.shownMessages.length - 1) index message h1 (by omega) hget hown
      (fun later other hl _ hg => hlater later other hl hg)
    simp [Window.inputCapture, hempty, hfound]
  · intro hnone
    have hfound := lastOwnFrom_none env.userID window.shownMessages
      (window.shownMessages.length - 1)
      (fun index message h1 _ hg => hnone index message h1 hg)
    simp [Window.inputCapture, hempty, hfound]

/-- C17 at concrete inputs: with own messages at indices 0 and 2 of four, Up
targets the one at index 2; with the only own message at index 0, Up changes
nothing. -/
theorem up_targets_last_own_message_witness :
    ((sampleWindow sampleOwnShown).inputCapture sampleSession id Key.Up).window =
      { sampleWindow sampleOwnShown with
          messageInputText :=
            sampleSession.contentWithMentionsReplaced (sampleMessage "m2" "general" "3" sampleSelf)
          editingMessageID := some (sampleMessage "m2" "general" "3" sampleSelf).ID } ∧
    ((sampleWindow sampleOwnFirstOnly).inputCapture sampleSession id Key.Up).window =
      sampleWindow sampleOwnFirstOnly :=
  ⟨(up_targets_last_own_message sampleSession id (sampleWindow sampleOwnShown) rfl).1 2
      (sampleMessage "m2" "general" "3" sampleSelf) (by decide) rfl rfl
      (by
        intro later other hlt hget
        have hlen : later < (sampleWindow sampleOwnShown).shownMessages.length := by
          rcases List.getElem?_eq_some.1 hget with ⟨h, _⟩
          exact h
        have h3 : later = 3 := by
          simp [sampleWindow, sampleOwnShown] at hlen
          omega
        subst h3
        cases hget
        decide),
   (up_targets_last_own_message sampleSession id (sampleWindow sampleOwnFirstOnly) rfl).2
      (by
        intro index message h1 hget
        have hlen : index < (sampleWindow sampleOwnFirstOnly).shownMessages.length := by
          rcases List.getElem?_eq_some.1 hget with ⟨h, _⟩
          exact h
        have h1 : index = 1 := by
          simp [sampleWindow, sampleOwnFirstOnly] at hlen
          omega
        subst h1
        cases hget
        decide)⟩

/-! ### Edit target and selection -/

theorem lastOwnFrom_nil (userID : String) (n : Nat) : lastOwnFrom userID [] n = none :=
  lastOwnFrom_none userID [] n (fun index message _ _ hget => by simp at hget)

theorem inputCapture_settled (env : Session) (prepare : String → String) (window : Window)
    (key : Key) (hsettled : window.Settled) :
    (window.inputCapture env prepare key).window.Settled := by
  cases hsel : window.selectedChannel with
  | none =>
    obtain ⟨hshown, hedit⟩ := hsettled hsel
    have hcapture : (window.inputCapture env prepare key).window = window ∨
        (window.inputCapture env prepare key).window = window.exitMessageEditMode := by
      unfold Window.inputCapture
      simp only [hshown, hsel, lastOwnFrom_nil]
      split
      · exact Or.inl rfl
      · split
        · exact Or.inr rfl
        · split <;> exact Or.inl rfl
    rcases hcapture with h | h
    · rw [h]; exact hsettled
    · rw [h]
      intro _
      exact ⟨hshown, rfl⟩
  | some selected =>
    have hkeeps : (window.inputCapture env prepare key).window.selectedChannel =
        window.selectedChannel := by
      unfold Window.inputCapture
      simp only
      split_ifs <;> first | rfl | (split <;> first | rfl | (split <;> rfl))
    intro hnone
    rw [hkeeps, hsel] at hnone
    cases hnone

theorem applyOp_settled (env : Session) (prepare : String → String) (window next : Window)
    (op : WindowOp) (hsettled : window.Settled)
    (hguard : op.writesShown = true → window.selectedChannel ≠ none)
    (hok : window.applyOp env prepare op = .ok next) : next.Settled := by
  cases op with
  | loadChannel channel =>
    intro hnone
    rw [LoadChannel_selectedChannel env window next channel hok] at hnone
    cases hnone
  | setMessages messages =>
    cases hok
    intro hnone
    exact absurd hnone (hguard rfl)
  | addMessages messages =>
    cases hok
    intro hnone
    exact absurd hnone (hguard rfl)
  | key key =>
    cases hok
    exact inputCapture_settled env prepare window key hsettled
  | typed text =>
    cases hok
    exact hsettled
  | dialogDone index =>
    simp only [Window.applyOp, Window.deleteDialogDone] at hok
    have hnext : next = window.exitMessageEditMode := by
      split at hok
      · split at hok
        · cases hok; rfl
        · cases hok
      · cases hok; rfl
    rw [hnext]
    intro hnone
    exact ⟨(hsettled hnone).1, rfl⟩
  | editMessage result =>
    cases result with
    | error reason =>
      cases hok
      intro hnone
      exact ⟨(hsettled hnone).1, rfl⟩
    | ok updatedMessage =>
      cases hok
      intro hnone
      have hshown := (hsettled hnone).1
      refine ⟨?_, rfl⟩
      show replaceSlot updatedMessage window.shownMessages = []
      rw [hshown]
      rfl

theorem applyOps_settled (env : Session) (prepare : String → String) (ops : List WindowOp)
    (window final : Window) (hsettled : window.Settled)
    (hwrites : WritesWhileSelected env prepare window ops)
    (hrun : window.applyOps env prepare ops = .ok final) : final.Settled := by
  induction ops generalizing window with
  | nil =>
    cases hrun
    exact hsettled
  | cons op rest ih =>
    simp only [Window.applyOps] at hrun
    split at hrun
    · cases hrun
    · rename_i next hnext
      exact ih next (applyOp_settled env prepare window next op hsettled hwrites.1 hnext)
        (hwrites.2 next hnext) hrun

/-- C14, as the code has it: in every window reached from the new window by
loading channels, keys in the message input, typing, answering the delete
dialog, user edits, and direct calls of `SetMessages` or `AddMessages` made
while a channel is selected, an edit target is set only while a channel is
selected (and with no channel selected nothing is shown). -/
theorem edit_target_needs_selection (env : Session) (prepare : String → String)
    (ops : List WindowOp) (final : Window)
    (hwrites : WritesWhileSelected env prepare Window.initial ops)
    (hrun : Window.initial.applyOps env prepare ops = .ok final) :
    (final.editingMessageID ≠ none → final.selectedChannel ≠ none) ∧
    (final.selectedChannel = none → final.shownMessages = []) := by
  have hsettled := applyOps_settled env prepare ops Window.initial final
    (fun _ => ⟨rfl, rfl⟩) hwrites hrun
  refine ⟨fun hedit hnone => hedit (hsettled hnone).2, fun hnone => (hsettled hnone).1⟩

/-- C14, amended, at a concrete input: a channel is loaded, its four messages
are set again, and Up targets the own message at index 2. -/
theorem edit_target_needs_selection_witness :
    Window.initial.applyOps sampleSession id
        [WindowOp.loadChannel sampleOwnHistory, WindowOp.setMessages sampleOwnShown,
         WindowOp.key Key.Up] =
      .ok { Window.initial with
              shownMessages := sampleOwnShown
              selectedChannel := some sampleOwnHistory
              channelTitle := "general"
              messageInputText := "hello"
              editingMessageID := some "m2" } ∧
    ((some "m2" : Option String) ≠ none → (some sampleOwnHistory : Option Channel) ≠ none) :=
  ⟨rfl,
   (edit_target_needs_selection sampleSession id
      [WindowOp.loadChannel sampleOwnHistory, WindowOp.setMessages sampleOwnShown,
       WindowOp.key Key.Up]
      { Window.initial with
          shownMessages := sampleOwnShown
          selectedChannel := some sampleOwnHistory
          channelTitle := "general"
          messageInputText := "hello"
          editingMessageID := some "m2" }
      ⟨(fun h => by cases h), fun next hnext =>
        ⟨(fun _ => by
            rw [LoadChannel_selectedChannel sampleSession Window.initial next sampleOwnHistory
              hnext]
            simp),
          fun _ _ => ⟨(fun h => by cases h), fun _ _ => trivial⟩⟩⟩
      rfl).1⟩

/-- C14 fails as stated: on the new window, with no channel ever selected,
`AddMessages` puts four messages into the visible sequence and Up then sets
the edit target to the own message at index 2. -/
theorem edit_target_without_selection :
    Window.initial.applyOps sampleSession id
        [WindowOp.addMessages sampleOwnShown, WindowOp.key Key.Up] =
      .ok { Window.initial with
              shownMessages := sampleOwnShown
              messageInputText := "hello"
              editingMessageID := some "m2" } ∧
    ({ Window.initial with
         shownMessages := sampleOwnShown
         messageInputText := "hello"
         editingMessageID := some "m2" } : Window).editingMessageID = some "m2" ∧
    ({ Window.initial with
         shownMessages := sampleOwnShown
         messageInputText := "hello"
         editingMessageID := some "m2" } : Window).selectedChannel = none :=
  ⟨rfl, rfl, rfl⟩

/-! ### The member list -/

theorem findRolePair_named (a b : String) (ra rb : Role) (hab : a ≠ b) (rs : List Role)
    (ha : ∀ r ∈ rs, r.ID = a → r = ra) (hb : ∀ r ∈ rs, r.ID = b → r = rb)
    (found : Option Role × Option Role) :
    findRolePair a b rs found =
      (if rs.any (fun r => r.ID == a) then some ra else found.1,
       if rs.any (fun r => r.ID == b) then some rb else found.2) := by
  induction rs generalizing found with
  | nil => simp [findRolePair]
  | cons r rest ih =>
    obtain ⟨firstRole, secondRole⟩ := found
    have ha2 : ∀ x ∈ rest, x.ID = a → x = ra := fun x hx => ha x (List.mem_cons_of_mem _ hx)
    have hb2 : ∀ x ∈ rest, x.ID = b → x = rb := fun x hx => hb x (List.mem_cons_of_mem _ hx)
    unfold findRolePair
    by_cases h1 : r.ID = a
    · have hr : r = ra := ha r (List.mem_cons_self _ _) h1
      have hne : r.ID ≠ b := fun h => hab (h1.symm.trans h)
      rw [if_pos h1, ih ha2 hb2]
      subst hr
      simp [h1, hab]
    · rw [if_neg h1]
      by_cases h2 : r.ID = b
      · have hr : r = rb := hb r (List.mem_cons_self _ _) h2
        rw [if_pos h2, ih ha2 hb2]
        subst hr
        simp [h2, Ne.symm hab]
      · rw [if_neg h2, ih ha2 hb2]
        simp [h1, h2]

theorem positionOf_named (roles : List Role) (id : String) (role : Role)
    (hmem : role ∈ roles) (hid : role.ID = id)
    (honly : ∀ other ∈ roles, other.ID = id → other = role) :
    positionOf roles id = role.Position := by
  unfold positionOf
  cases hfind : roles.find? (fun r => r.ID == id) with
  | none =>
    have := List.find?_eq_none.1 hfind role hmem
    simp [hid] at this
  | some found =>
    have hfoundID : found.ID = id := by
      have := List.find?_some hfind
      simpa using this
    have hfoundMem : found ∈ roles := List.mem_of_find?_eq_some hfind
    rw [honly found hfoundMem hfoundID]

theorem memberRoleLess_named (roles : List Role) (user : Member)
    (hwf : user.WellFormed roles) (a b : String) (ha : a ∈ user.Roles) (hb : b ∈ user.Roles)
    (hab : a ≠ b) :
    memberRoleLess roles a b = .ok (positionGreater roles a b) := by
  obtain ⟨ra, hra, hraID, hraOnly⟩ := hwf.2 a ha
  obtain ⟨rb, hrb, hrbID, hrbOnly⟩ := hwf.2 b hb
  have hpair := findRolePair_named a b ra rb hab roles hraOnly hrbOnly (none, none)
  have hanyA : roles.any (fun r => r.ID == a) = true :=
    List.any_eq_true.2 ⟨ra, hra, by simp [hraID]⟩
  have hanyB : roles.any (fun r => r.ID == b) = true :=
    List.any_eq_true.2 ⟨rb, hrb, by simp [hrbID]⟩
  rw [hanyA, hanyB] at hpair
  simp only [if_true] at hpair
  unfold memberRoleLess positionGreater
  rw [hpair, positionOf_named roles a ra hra hraID hraOnly,
    positionOf_named roles b rb hrb hrbID hrbOnly]

theorem insertByLessM_eq {α : Type} (less : α → α → Except Fault Bool)
    (p : α → α → Bool)
    (x : α) (ys : List α) (hless : ∀ y ∈ ys, less x y = .ok (p x y)) :
    insertByLessM less x ys = .ok (insertByLess p x ys) := by
  induction ys with
  | nil => rfl
  | cons y rest ih =>
    have hrest := ih (fun z hz => hless z (List.mem_cons_of_mem _ hz))
    unfold insertByLessM insertByLess
    rw [hless y (List.mem_cons_self _ _)]
    cases hp : p x y with
    | true => simp
    | false => simp [hrest]

theorem sortSliceM_eq {α : Type} (less : α → α → Except Fault Bool) (p : α → α → Bool)
    (xs sorted : List α) (hnodup : (sorted ++ xs).Nodup)
    (hless : ∀ x y, x ∈ sorted ++ xs → y ∈ sorted ++ xs → x ≠ y →
      less x y = .ok (p x y)) :
    sortSliceM less sorted xs =
      .ok (xs.foldl (fun sorted x => insertByLess p x sorted) sorted) := by
  induction xs generalizing sorted with
  | nil => rfl
  | cons x rest ih =>
    have hx : x ∈ sorted ++ x :: rest := by simp
    have hxnot : x ∉ sorted := by
      intro hmem
      have := List.nodup_append.1 hnodup
      exact this.2.2 hmem (List.mem_cons_self _ _)
    have hinsert : insertByLessM less x sorted = .ok (insertByLess p x sorted) := by
      apply insertByLessM_eq
      intro y hy
      exact hless x y hx (List.mem_append_left _ hy) (fun h => hxnot (h ▸ hy))
    have hperm : (insertByLess p x sorted ++ rest).Perm (sorted ++ x :: rest) :=
      ((insertByLess_perm p x sorted).append_right rest).trans
        (List.perm_middle : (sorted ++ x :: rest).Perm (x :: (sorted ++ rest))).symm
    unfold sortSliceM
    rw [hinsert]
    simp only [List.foldl_cons]
    apply ih
    · exact hperm.nodup_iff.2 hnodup
    · intro a b ha hb hne
      exact hless a b (hperm.subset ha) (hperm.subset hb) hne

theorem sortMemberRoles_eq (roles : List Role) (user : Member) (hwf : user.WellFormed roles) :
    sortSliceM (memberRoleLess roles) [] user.Roles =
      .ok (sortSlice (positionGreater roles) user.Roles) := by
  unfold sortSlice
  apply sortSliceM_eq
  · simpa using hwf.1
  · intro a b ha hb hab
    exact memberRoleLess_named roles user hwf a b (by simpa using ha) (by simpa using hb) hab

theorem sortMemberRoles_pairwise (roles : List Role) (ids : List String) :
    (sortSlice (positionGreater roles) ids).Pairwise
      (fun a b => positionOf roles b ≤ positionOf roles a) := by
  have h := sortSlice_pairwise (positionGreater roles)
    (fun a b hab => by
      simp only [positionGreater, decide_eq_true_eq, decide_eq_false_iff_not] at hab ⊢
      omega)
    (fun a b c hab hbc => by
      simp only [positionGreater, decide_eq_true_eq] at hab hbc ⊢
      omega)
    ids
  refine h.imp ?_
  intro a b hba
  simp only [positionGreater, decide_eq_false_iff_not] at hba
  omega

theorem firstHoisted_spec (roles : List Role) (ids : List String)
    (hsorted : ids.Pairwise (fun a b => positionOf roles b ≤ positionOf roles a)) :
    match firstHoisted roles ids with
    | some id =>
      id ∈ ids ∧ roles.any (fun role => role.Hoist && role.ID == id) = true ∧
        ∀ other ∈ ids, roles.any (fun role => role.Hoist && role.ID == other) = true →
          positionOf roles other ≤ positionOf roles id
    | none => ∀ id ∈ ids, roles.any (fun role => role.Hoist && role.ID == id) = false := by
  induction ids with
  | nil => simp [firstHoisted]
  | cons first rest ih =>
    rw [List.pairwise_cons] at hsorted
    unfold firstHoisted
    by_cases hfirst : roles.any (fun role => role.Hoist && role.ID == first) = true
    · rw [if_pos hfirst]
      refine ⟨List.mem_cons_self _ _, hfirst, ?_⟩
      intro other hother _
      rcases List.mem_cons.1 hother with rfl | hother
      · exact le_refl _
      · exact hsorted.1 other hother
    · rw [if_neg hfirst]
      have hrest := ih hsorted.2
      cases hfound : firstHoisted roles rest with
      | none =>
        rw [hfound] at hrest
        intro id hid
        rcases List.mem_cons.1 hid with rfl | hid
        · simpa using hfirst
        · exact hrest id hid
      | some id =>
        rw [hfound] at hrest
        obtain ⟨hmem, hhoist, hmax⟩ := hrest
        refine ⟨List.mem_cons_of_mem _ hmem, hhoist, ?_⟩
        intro other hother hotherHoist
        rcases List.mem_cons.1 hother with rfl | hother
        · exact absurd hotherHoist hfirst
        · exact hmax other hother hotherHoist

theorem placedByRule_firstHoisted (roles : List Role) (user : Member)
    (hwf : user.WellFormed roles) :
    PlacedByRule roles
      (firstHoisted roles (sortSlice (positionGreater roles) user.Roles)) user := by
  have hperm := sortSlice_perm (positionGreater roles) user.Roles
  have hspec := firstHoisted_spec roles _ (sortMemberRoles_pairwise roles user.Roles)
  cases hfound : firstHoisted roles (sortSlice (positionGreater roles) user.Roles) with
  | none =>
    rw [hfound] at hspec
    intro role hrole hheld
    have hnot := hspec role.ID (hperm.symm.subset hheld)
    cases hhoist : role.Hoist with
    | false => rfl
    | true =>
      have hany : roles.any (fun r => r.Hoist && r.ID == role.ID) = true :=
        List.any_eq_true.2 ⟨role, hrole, by simp [hhoist]⟩
      rw [hany] at hnot
      cases hnot
  | some id =>
    rw [hfound] at hspec
    obtain ⟨hmem, hhoist, hmax⟩ := hspec
    have hheld : id ∈ user.Roles := hperm.subset hmem
    obtain ⟨role, hrole, hroleProp⟩ := List.any_eq_true.1 hhoist
    have hroleHoist : role.Hoist = true := by
      simp only [Bool.and_eq_true, beq_iff_eq] at hroleProp
      exact hroleProp.1
    have hroleID : role.ID = id := by
      simp only [Bool.and_eq_true, beq_iff_eq] at hroleProp
      exact hroleProp.2
    obtain ⟨named, hnamed, hnamedID, hnamedOnly⟩ := hwf.2 id hheld
    have hsame : role = named := hnamedOnly role hrole hroleID
    refine ⟨hheld, role, hrole, hroleID, hroleHoist, ?_⟩
    intro other hother hotherHeld hotherHoist
    have hanyOther : roles.any (fun r => r.Hoist && r.ID == other.ID) = true :=
      List.any_eq_true.2 ⟨other, hother, by simp [hotherHoist]⟩
    have hle := hmax other.ID (hperm.symm.subset hotherHeld) hanyOther
    obtain ⟨otherNamed, hotherNamed, hotherNamedID, hotherOnly⟩ := hwf.2 other.ID hotherHeld
    have hotherSame : other = otherNamed := hotherOnly other hother rfl
    rw [positionOf_named roles other.ID otherNamed hotherNamed hotherNamedID hotherOnly,
      positionOf_named roles id named hnamed hnamedID hnamedOnly] at hle
    rw [hotherSame, hsame]
    exact hle

theorem addChild_skeleton (key : Option String) (user : Member) (groups : List UserGroup) :
    (addChild key user groups).map (fun group => (group.key, group.text)) =
      groups.map (fun group => (group.key, group.text)) := by
  induction groups with
  | nil => rfl
  | cons group rest ih =>
    unfold addChild
    split
    · simp [ih]
    · split <;> simp

theorem addChild_children (key : Option String) (user : Member) (groups : List UserGroup)
    (hkey : ∃ group ∈ groups, group.key = key) :
    (allChildren (addChild key user groups)).Perm (user :: allChildren groups) := by
  induction groups with
  | nil =>
    obtain ⟨group, hmem, _⟩ := hkey
    cases hmem
  | cons group rest ih =>
    unfold addChild
    by_cases hrest : rest.any (fun other => other.key == key) = true
    · rw [if_pos hrest]
      have hex : ∃ other ∈ rest, other.key = key := by
        obtain ⟨other, hother, hk⟩ := List.any_eq_true.1 hrest
        exact ⟨other, hother, by simpa using hk⟩
      simp only [allChildren]
      exact ((ih hex).append_left group.children).trans
        (List.perm_middle : (group.children ++ user :: allChildren rest).Perm
          (user :: (group.children ++ allChildren rest)))
    · rw [if_neg hrest]
      have hhere : group.key = key := by
        obtain ⟨found, hmem, hk⟩ := hkey
        rcases List.mem_cons.1 hmem with rfl | hmem
        · exact hk
        · exact absurd (List.any_eq_true.2 ⟨found, hmem, by simp [hk]⟩) hrest
      rw [if_pos hhere]
      simp only [allChildren, List.append_assoc, List.singleton_append]
      exact (List.perm_middle : (group.children ++ user :: allChildren rest).Perm
          (user :: (group.children ++ allChildren rest)))

theorem addChild_origin (key : Option String) (user : Member) (groups : List UserGroup) :
    ∀ changed ∈ addChild key user groups, ∀ child ∈ changed.children,
      (∃ group ∈ groups, group.key = changed.key ∧ child ∈ group.children) ∨
      (child = user ∧ changed.key = key) := by
  induction groups with
  | nil => intro changed hchanged; cases hchanged
  | cons group rest ih =>
    intro changed hchanged child hchild
    unfold addChild at hchanged
    split at hchanged
    · rcases List.mem_cons.1 hchanged with rfl | hchanged
      · exact Or.inl ⟨changed, List.mem_cons_self _ _, rfl, hchild⟩
      · rcases ih changed hchanged child hchild with ⟨found, hfound, hk, hc⟩ | h
        · exact Or.inl ⟨found, List.mem_cons_of_mem _ hfound, hk, hc⟩
        · exact Or.inr h
    · split at hchanged
      · rename_i hhere
        rcases List.mem_cons.1 hchanged with rfl | hchanged
        · simp only [List.mem_append, List.mem_singleton] at hchild
          rcases hchild with hchild | hchild
          · exact Or.inl ⟨group, List.mem_cons_self _ _, rfl, hchild⟩
          · exact Or.inr ⟨hchild, hhere⟩
        · exact Or.inl ⟨changed, List.mem_cons_of_mem _ hchanged, rfl, hchild⟩
      · exact Or.inl ⟨changed, hchanged, rfl, hchild⟩

theorem placeUsers_spec (roles : List Role) (users : List Member) (groups : List UserGroup)
    (hwf : ∀ user ∈ users, user.WellFormed roles)
    (hdefault : ∃ group ∈ groups, group.key = none)
    (hkeys : ∀ id, roles.any (fun role => role.Hoist && role.ID == id) = true →
      ∃ group ∈ groups, group.key = some id) :
    ∃ final, placeUsers roles groups users = .ok final ∧
      final.map (fun group => (group.key, group.text)) =
        groups.map (fun group => (group.key, group.text)) ∧
      (allChildren final).Perm (allChildren groups ++ users) ∧
      ∀ changed ∈ final, ∀ child ∈ changed.children,
        (∃ group ∈ groups, group.key = changed.key ∧ child ∈ group.children) ∨
        (child ∈ users ∧ PlacedByRule roles changed.key child) := by
  induction users generalizing groups with
  | nil =>
    refine ⟨groups, rfl, rfl, by simp, ?_⟩
    intro changed hchanged child hchild
    exact Or.inl ⟨changed, hchanged, rfl, hchild⟩
  | cons user rest ih =>
    have huser := hwf user (List.mem_cons_self _ _)
    have hsort := sortMemberRoles_eq roles user huser
    have hrule := placedByRule_firstHoisted roles user huser
    generalize hkey : firstHoisted roles (sortSlice (positionGreater roles) user.Roles) = key
      at hrule
    have hexists : ∃ group ∈ groups, group.key = key := by
      cases key with
      | none => exact hdefault
      | some id =>
        have hspec := firstHoisted_spec roles _ (sortMemberRoles_pairwise roles user.Roles)
        rw [hkey] at hspec
        exact hkeys id hspec.2.1
    have hskeleton := addChild_skeleton key user groups
    have hmemKey : ∀ (wanted : Option String),
        (∃ group ∈ groups, group.key = wanted) →
        ∃ group ∈ addChild key user groups, group.key = wanted := by
      intro wanted hwanted
      obtain ⟨group, hgroup, hk⟩ := hwanted
      have hin : (wanted, group.text) ∈
          (addChild key user groups).map (fun group => (group.key, group.text)) := by
        rw [hskeleton]
        exact List.mem_map.2 ⟨group, hgroup, by simp [hk]⟩
      obtain ⟨found, hfound, hpair⟩ := List.mem_map.1 hin
      exact ⟨found, hfound, (Prod.mk.inj hpair).1⟩
    obtain ⟨final, hrun, hfinalSkeleton, hfinalChildren, hfinalOrigin⟩ :=
      ih (addChild key user groups)
        (fun other hother => hwf other (List.mem_cons_of_mem _ hother))
        (hmemKey none hdefault)
        (fun id hid => hmemKey (some id) (hkeys id hid))
    refine ⟨final, ?_, hfinalSkeleton.trans hskeleton, ?_, ?_⟩
    · simp only [placeUsers, hsort, hkey]
      exact hrun
    · refine hfinalChildren.trans ?_
      refine ((addChild_children key user groups hexists).append_right rest).trans ?_
      exact (List.perm_middle : (allChildren groups ++ user :: rest).Perm
        (user :: (allChildren groups ++ rest))).symm
    · intro changed hchanged child hchild
      rcases hfinalOrigin changed hchanged child hchild with ⟨mid, hmid, hk, hc⟩ | ⟨hc, hr⟩
      · rcases addChild_origin key user groups mid hmid child hc with
          ⟨group, hgroup, hk2, hc2⟩ | ⟨hc2, hk2⟩
        · exact Or.inl ⟨group, hgroup, hk2.trans hk, hc2⟩
        · refine Or.inr ⟨by rw [hc2]; exact List.mem_cons_self _ _, ?_⟩
          rw [hc2, ← hk, hk2]
          exact hrule
      · exact Or.inr ⟨List.mem_cons_of_mem _ hc, hr⟩

theorem wellFormed_of_perm (roles sorted : List Role) (user : Member)
    (hperm : sorted.Perm roles) (hwf : user.WellFormed roles) : user.WellFormed sorted := by
  refine ⟨hwf.1, ?_⟩
  intro id hid
  obtain ⟨role, hrole, hroleID, honly⟩ := hwf.2 id hid
  exact ⟨role, hperm.symm.subset hrole, hroleID,
    fun other hother hotherID => honly other (hperm.subset hother) hotherID⟩

theorem placedByRule_of_perm (roles sorted : List Role) (key : Option String) (user : Member)
    (hperm : sorted.Perm roles) (hrule : PlacedByRule sorted key user) :
    PlacedByRule roles key user := by
  cases key with
  | none =>
    intro role hrole hheld
    exact hrule role (hperm.symm.subset hrole) hheld
  | some id =>
    obtain ⟨hheld, role, hrole, hroleID, hhoist, hmax⟩ := hrule
    exact ⟨hheld, role, hperm.subset hrole, hroleID, hhoist,
      fun other hother hotherHeld hotherHoist =>
        hmax other (hperm.symm.subset hother) hotherHeld hotherHoist⟩

theorem allChildren_roleGroups (roles : List Role) :
    allChildren (roleGroups roles ++ [nonHoistGroup]) = [] := by
  unfold roleGroups
  induction roles.filter (fun role => role.Hoist) with
  | nil => rfl
  | cons role rest ih => simpa [allChildren] using ih

/-- C15: for a guild read back from the state in which the role ids of each
member are distinct and each names one role of the guild, `UpdateUsersForGuild`
completes, and the member list it builds has one group per hoisted role,
labelled with the role's name, in the order of the roles sorted by descending
position, followed by the group "No Hoist Role"; the member nodes over all
groups are the members, each once; a member under a role's group holds that
role, which is hoisted and of a position no lower than any hoisted role the
member holds, and a member under "No Hoist Role" holds no hoisted role. -/
theorem updateUsers_groups_by_hoisted_role (guildState : GuildState)
    (userNodes : List UserGroup)
    (hwf : ∀ user ∈ guildState.Members, user.WellFormed guildState.Roles) :
    ∃ (roles : List Role) (groups : List UserGroup),
      roles.Perm guildState.Roles ∧
      roles.Pairwise (fun a b => b.Position ≤ a.Position) ∧
      UpdateUsersForGuild (some guildState) userNodes = .ok groups ∧
      groups.map (fun group => (group.key, group.text)) =
        (roles.filter (fun role => role.Hoist)).map (fun role => (some role.ID, role.Name)) ++
          [(none, "No Hoist Role")] ∧
      (allChildren groups).Perm guildState.Members ∧
      ∀ group ∈ groups, ∀ user ∈ group.children,
        PlacedByRule guildState.Roles group.key user := by
  have hperm := sortSlice_perm rolePositionGreater guildState.Roles
  have hsorted : (sortSlice rolePositionGreater guildState.Roles).Pairwise
      (fun a b => b.Position ≤ a.Position) := by
    have h := sortSlice_pairwise rolePositionGreater
      (fun a b hab => by
        simp only [rolePositionGreater, decide_eq_true_eq, decide_eq_false_iff_not] at hab ⊢
        omega)
      (fun a b c hab hbc => by
        simp only [rolePositionGreater, decide_eq_true_eq] at hab hbc ⊢
        omega)
      guildState.Roles
    refine h.imp ?_
    intro a b hba
    simp only [rolePositionGreater, decide_eq_false_iff_not] at hba
    omega
  obtain ⟨groups, hrun, hskeleton, hchildren, horigin⟩ :=
    placeUsers_spec (sortSlice rolePositionGreater guildState.Roles) guildState.Members
      (roleGroups (sortSlice rolePositionGreater guildState.Roles) ++ [nonHoistGroup])
      (fun user huser => wellFormed_of_perm _ _ user hperm (hwf user huser))
      ⟨nonHoistGroup, by simp, rfl⟩
      (fun id hid => by
        obtain ⟨role, hrole, hprop⟩ := List.any_eq_true.1 hid
        simp only [Bool.and_eq_true, beq_iff_eq] at hprop
        refine ⟨{ key := some role.ID, text := role.Name, children := [] }, ?_,
          by simp [hprop.2]⟩
        apply List.mem_append_left
        unfold roleGroups
        exact List.mem_map.2 ⟨role, List.mem_filter.2 ⟨hrole, by simp [hprop.1]⟩, rfl⟩)
  refine ⟨sortSlice rolePositionGreater guildState.Roles, groups, hperm, hsorted, hrun, ?_, ?_,
    ?_⟩
  · rw [hskeleton]
    simp [roleGroups, nonHoistGroup, List.map_map, Function.comp_def]
  · rw [allChildren_roleGroups] at hchildren
    simpa using hchildren
  · intro group hgroup user huser
    rcases horigin group hgroup user huser with ⟨start, hstart, _, hchild⟩ | ⟨_, hrule⟩
    · exfalso
      have hnone : ∀ g ∈ roleGroups (sortSlice rolePositionGreater guildState.Roles) ++
          [nonHoistGroup], g.children = [] := by
        intro g hg
        rcases List.mem_append.1 hg with hg | hg
        · unfold roleGroups at hg
          obtain ⟨role, _, rfl⟩ := List.mem_map.1 hg
          rfl
        · rw [List.mem_singleton.1 hg]
          rfl
      rw [hnone start hstart] at hchild
      cases hchild
    · exact placedByRule_of_perm _ _ _ _ hperm hrule

/-- C15 at a concrete input: three roles at positions 2, 0, 3 (the one at 0 not
hoisted) and three members.  The groups are "Admins", "Moderators" and
"No Hoist Role"; the member holding all three roles is under "Admins". -/
theorem updateUsers_groups_by_hoisted_role_witness :
    (∀ user ∈ sampleGuild.Members, user.WellFormed sampleGuild.Roles) ∧
    UpdateUsersForGuild (some sampleGuild) [] =
      .ok [{ key := some "r-admin", text := "Admins",
             children := [{ Nick := "", User := sampleSelf,
                            Roles := ["r-all", "r-mod", "r-admin"] }] },
           { key := some "r-mod", text := "Moderators",
             children := [{ Nick := "Carol", User := sampleFriend, Roles := ["r-mod"] }] },
           { key := none, text := "No Hoist Role",
             children := [{ Nick := "Bob", User := sampleFriend, Roles := ["r-all"] }] }] ∧
    ∃ (roles : List Role) (groups : List UserGroup),
      roles.Perm sampleGuild.Roles ∧
      roles.Pairwise (fun a b => b.Position ≤ a.Position) ∧
      UpdateUsersForGuild (some sampleGuild) [] = .ok groups ∧
      groups.map (fun group => (group.key, group.text)) =
        (roles.filter (fun role => role.Hoist)).map (fun role => (some role.ID, role.Name)) ++
          [(none, "No Hoist Role")] ∧
      (allChildren groups).Perm sampleGuild.Members ∧
      ∀ group ∈ groups, ∀ user ∈ group.children,
        PlacedByRule sampleGuild.Roles group.key user := by
  have hwf : ∀ user ∈ sampleGuild.Members, user.WellFormed sampleGuild.Roles := by
    intro user huser
    simp only [sampleGuild, List.mem_cons, List.mem_singleton, List.not_mem_nil, or_false]
      at huser
    rcases huser with rfl | rfl | rfl <;>
      (unfold Member.WellFormed; simp [sampleGuild])
  exact ⟨hwf, rfl, updateUsers_groups_by_hoisted_role sampleGuild [] hwf⟩

end Cordless
